import Mathlib

/-!
Verification of the jsonschema validator core (Go) against its specification.

This file is a shallow embedding of the relevant parts of the source:

* machine floats (float64) are modelled by exact rationals extended with
  signed infinities and NaN (`GoFloat`); float arithmetic that the claims
  depend on (truncation, equality, IEEE division, infinity checks) is exact
  on this model, and rounding of decimal literals is idealized away;
* Go `error` values are modelled by `GoErr`: the two validation error types
  of internal/validerr, plain errors from errors.New / fmt.Errorf, and the
  wrapper produced by errors.Join;
* the mutable accumulation of errors (`AddError`, `AddValidationErrorStruct`)
  becomes explicit state passing on `Option GoErr`;
* instances (the Go `any` values being validated) are modelled by `Instance`.

Every definition is translated from the Go source of the repository;
doc comments name the Go function a definition embeds.
-/

namespace JS

attribute [local semireducible] Rat.mul Rat.inv Rat.add Rat.sub

/-! ## Floats

Model of Go float64: a finite float is an exact rational; infinities keep
their sign; NaN is a separate point.  Signed zero is collapsed (the claims
do not depend on it). -/

/-- Model of a Go float64 value. -/
inductive GoFloat where
  | finite (q : ℚ)
  | inf (neg : Bool)
  | nan
deriving DecidableEq, Repr

/-- Truncation toward zero on rationals, the model of math.Trunc on
finite values: the truncating integer division of the numerator by the
denominator. -/
def ratTrunc (q : ℚ) : ℤ :=
  q.num.tdiv q.den

/-- Model of math.Trunc: truncation toward zero; infinities and NaN are
returned unchanged, as in Go. -/
def GoFloat.trunc : GoFloat → GoFloat
  | .finite q => .finite (ratTrunc q : ℤ)
  | .inf b => .inf b
  | .nan => .nan

/-- Model of the Go == comparison on float64: NaN is not equal to
anything, including itself. -/
def GoFloat.goEq : GoFloat → GoFloat → Bool
  | .finite a, .finite b => decide (a = b)
  | .inf a, .inf b => a == b
  | _, _ => false

/-- Model of math.IsInf(f, 0). -/
def GoFloat.isInf : GoFloat → Bool
  | .inf _ => true
  | _ => false

/-- Sign bit of a float (true for negative); NaN reported as positive. -/
def GoFloat.isNeg : GoFloat → Bool
  | .finite q => decide (q < 0)
  | .inf b => b
  | .nan => false

/-- Model of IEEE float64 division as performed by Go.  Division by zero
of a nonzero value gives an infinity, 0/0 and any NaN operand give NaN,
inf/inf gives NaN, finite/inf gives zero. -/
def GoFloat.div : GoFloat → GoFloat → GoFloat
  | .nan, _ => .nan
  | _, .nan => .nan
  | .finite a, .finite b =>
      if b = 0 then
        if a = 0 then .nan else .inf (decide (a < 0))
      else .finite (a / b)
  | .inf s, .finite b => .inf (s != decide (b < 0))
  | .finite _, .inf _ => .finite 0
  | .inf _, .inf _ => .nan

/-! ### strconv.ParseFloat

Model of strconv.ParseFloat(s, 64) on decimal inputs: optional sign,
decimal mantissa with at most one dot and at least one digit, optional
decimal exponent, and the special Inf / Infinity / NaN forms.
The hexadecimal float syntax and underscore separators accepted by Go are
not modelled.  Rounding to the nearest float64 is idealized away (the
parsed rational is kept exactly); out-of-range values, for which Go
returns a non-nil error, are rejected using the float64 overflow
threshold 2^1024. -/

/-- Digits of a string prefix: consume leading decimal digits, returning
their value, their count, and the rest of the character list. -/
def takeDigits : List Char → ℕ → ℕ → (ℕ × ℕ × List Char)
  | c :: cs, acc, n =>
      if c.isDigit then takeDigits cs (acc * 10 + (c.toNat - 48)) (n + 1)
      else (acc, n, c :: cs)
  | [], acc, n => (acc, n, [])

/-- Case-insensitive character list comparison for the Inf / NaN forms. -/
def charsEqFold (a b : List Char) : Bool :=
  a.map Char.toLower == b.map Char.toLower

/-- Parse mantissa and exponent after the sign.  Returns the absolute
value as a rational, or none for a syntax error. -/
def parseMantissa (cs : List Char) : Option ℚ :=
  let (ip, ipLen, rest) := takeDigits cs 0 0
  match rest with
  | '.' :: rest2 =>
      let (fp, fpLen, rest3) := takeDigits rest2 0 0
      if ipLen + fpLen = 0 then none
      else
        let base : ℚ := (ip : ℚ) + (fp : ℚ) / ((10 : ℚ) ^ fpLen)
        parseExponentPart base rest3
  | _ =>
      if ipLen = 0 then none
      else parseExponentPart (ip : ℚ) rest
where
  /-- Parse an optional exponent part and require the end of input. -/
  parseExponentPart (base : ℚ) : List Char → Option ℚ
  | [] => some base
  | c :: cs2 =>
      if c = 'e' ∨ c = 'E' then
        let (sgn, cs3) :=
          match cs2 with
          | '+' :: t => (1, t)
          | '-' :: t => (-1, t)
          | t => ((1 : ℤ), t)
        let (ev, evLen, rest4) := takeDigits cs3 0 0
        if evLen = 0 ∨ rest4 ≠ [] then none
        else if sgn = 1 then some (base * (10 : ℚ) ^ ev)
        else some (base / (10 : ℚ) ^ ev)
      else none

/-- The float64 overflow threshold 2^1024, written as a literal numeral
so that closed evaluations reduce quickly. -/
def float64OverflowBound : ℚ :=
  179769313486231590772930519078902473361797697894230657273430081157732675805500963132708477322407536021120113879871393357658789768814416622492847430639474124377767893424865485276302219601246094119453082952085005768838150682342462881473913110540827237163350510684586298239947245938479716304835356329624224137216

/-- Model of strconv.ParseFloat(s, 64); see the section comment for the
idealizations.  Returns none when Go returns a non-nil error. -/
def parseGoFloat (s : String) : Option GoFloat :=
  let cs := s.toList
  let (neg, body) :=
    match cs with
    | '+' :: t => (false, t)
    | '-' :: t => (true, t)
    | t => (false, t)
  if charsEqFold body "inf".toList ∨ charsEqFold body "infinity".toList then
    some (.inf neg)
  else if charsEqFold cs "nan".toList then
    some .nan
  else
    match parseMantissa body with
    | none => none
    | some q =>
        if float64OverflowBound ≤ q then none
        else some (.finite (if neg then -q else q))

/-! ## Instances

Model of the Go `any` instance values handled by the validators: JSON
values decoded into Go (nil, bool, float64, string, []any,
map[string]any) together with Go integer values.  Go structs behave like
objects for the keywords at issue and are not modelled separately; all
non-numeric, non-string Go values behave identically for the numeric
keywords (reflect CanInt/CanUint/CanFloat are false). -/

/-- Model of an instance value passed to a keyword validator. -/
inductive Instance where
  | null
  | bool (b : Bool)
  | int (n : ℤ)
  | float (f : GoFloat)
  | str (s : String)
  | arr (xs : List Instance)
  | obj (fields : List (String × Instance))

/-! ## Errors (internal/validerr) -/

/-- Model of validerr.ValidationError: message plus the two basic-format
locations. -/
structure VError where
  message : String
  keywordLocation : String
  instanceLocation : String
deriving DecidableEq, Repr

/-- Shorthand constructor for a ValidationError. -/
def mkVE (m kl il : String) : VError :=
  { message := m, keywordLocation := kl, instanceLocation := il }

/-- Model of a Go error value as used by the validator: the two
validation error types, a plain error (errors.New / fmt.Errorf), and the
wrapper produced by errors.Join. -/
inductive GoErr where
  | vErr (e : VError)
  | vErrs (es : List VError)
  | plain (msg : String)
  | joined (es : List GoErr)
deriving Repr

/-- Model of validerr.IsValidationError. -/
def IsValidationError : GoErr → Bool
  | .vErr _ => true
  | .vErrs _ => true
  | _ => false

/-- The list of ValidationError values inside an error, for errors of the
two validation types. -/
def GoErr.veList : GoErr → List VError
  | .vErr e => [e]
  | .vErrs es => es
  | _ => []

/-- Model of validerr.AddValidationErrorStruct: append a ValidationError
to an accumulated error.  An accumulated error that is not a validation
error is left undisturbed. -/
def AddValidationErrorStruct (acc : Option GoErr) (ve : VError) : Option GoErr :=
  match acc with
  | none => some (.vErr ve)
  | some (.vErr one) => some (.vErrs [one, ve])
  | some (.vErrs es) => some (.vErrs (es ++ [ve]))
  | some e => some e

/-- Model of strings.HasPrefix, via the character lists of the strings. -/
def strHasPrefix (s p : String) : Bool :=
  p.data.isPrefixOf s.data

/-- The existing keyword-location tail used by AddError: the pointer body
without its leading # marker. -/
def locTail (kl : String) : String :=
  if kl = "" then ""
  else if strHasPrefix kl "#/" then kl.drop 2
  else if kl = "#" then ""
  else if strHasPrefix kl "#" then kl.drop 1
  else kl

/-- The location composition of AddError: loc (if any) plus the existing
tail (if any). -/
def composeLoc (loc tail : String) : String :=
  if loc = "" ∧ tail = "" then "#"
  else if loc = "" then "#/" ++ tail
  else if tail = "" then "#/" ++ loc
  else "#/" ++ loc ++ "/" ++ tail

/-- The rebuilt ValidationError produced by AddError for a nested
ValidationError: composed keyword location and defaulted instance
location. -/
def relocVE (loc : String) (ve : VError) : VError :=
  { message := ve.message
    keywordLocation := composeLoc loc (locTail ve.keywordLocation)
    instanceLocation := if ve.instanceLocation = "" then "#" else ve.instanceLocation }

/-- Model of validerr.AddError: add an error, which may be a validation
error, to an accumulated error.  Validation errors are restamped and
aggregated; a non-validation error replaces accumulated validation
errors, or is joined to an accumulated non-validation error. -/
def AddError (acc : Option GoErr) (err : GoErr) (loc : String) : Option GoErr :=
  match err with
  | .vErr ve => AddValidationErrorStruct acc (relocVE loc ve)
  | .vErrs ves => ves.foldl (fun a ve => AddValidationErrorStruct a (relocVE loc ve)) acc
  | e =>
    match acc with
    | some (.vErr _) => some e
    | some (.vErrs _) => some e
    | some (.joined es) =>
        if es.length > 0 then some (.joined (es ++ [e])) else some (.joined [.joined es, e])
    | some other => some (.joined [other, e])
    | none => some (.joined [e])

/-- Model of hasAnyLocation in pkg/types/schema: whether an error already
carries a populated keyword or instance location. -/
def hasAnyLocation : GoErr → Bool
  | .vErr e => e.keywordLocation ≠ "" ∨ e.instanceLocation ≠ ""
  | .vErrs es => es.any (fun e => e.keywordLocation ≠ "" ∨ e.instanceLocation ≠ "")
  | _ => false

/-- Model of the per-part aggregation loop of Schema.ValidateSubSchema /
Schema.ValidateInPlaceSchema: the loop is driven by the outcome of each
keyword validator, so it is embedded as a fold over the list of
(keyword name, validator outcome) pairs, in part order.  A nil outcome is
skipped; an outcome that already carries a location is added with an
empty prefix, otherwise it is added prefixed with the keyword name. -/
def aggregateStep (acc : Option GoErr) (kr : String × Option GoErr) : Option GoErr :=
  match kr.2 with
  | none => acc
  | some e => if hasAnyLocation e then AddError acc e "" else AddError acc e kr.1

/-- The whole aggregation loop of ValidateSubSchema /
ValidateInPlaceSchema over the listed validator outcomes, starting from
the nil error. -/
def validatePartResults (results : List (String × Option GoErr)) : Option GoErr :=
  results.foldl aggregateStep none

/-- The location prefix chosen by the aggregation loop for one keyword
validator outcome, applied to the nested ValidationError values: the
empty prefix when the error already carries a location, the keyword
name otherwise. -/
def stampOne (k : String) (e : GoErr) : List VError :=
  if hasAnyLocation e then e.veList.map (relocVE "")
  else e.veList.map (relocVE k)

/-- The error value aggregating a list of ValidationError values: nil
for none, the single error alone, a ValidationErrors collection
otherwise. -/
def errOfList : List VError → Option GoErr
  | [] => none
  | [e] => some (.vErr e)
  | e1 :: e2 :: r => some (.vErrs (e1 :: e2 :: r))

/-! ## ValidationState depth (pkg/types Schema validation state) -/

/-- Model of the fields of ValidationState that the Child method reads or
writes.  The remaining fields (Root, RootState, Schema, Index, URI, Opts,
VersionData) are copied verbatim by Child and do not affect its
behaviour, and Notes starts empty in the child. -/
structure ValidationState where
  depth : ℕ
  instancePath : List String
deriving DecidableEq, Repr

/-- Model of ValidationState.Child: fail with a plain (non-validation)
error when Depth exceeds 1000, otherwise return a child state with
Depth+1 and a copy of the instance path. -/
def Child (vs : ValidationState) : Except GoErr ValidationState :=
  if vs.depth > 1000 then
    .error (.plain "recursion while validating schema too deep")
  else
    .ok { depth := vs.depth + 1, instancePath := vs.instancePath }

/-- The chain of states produced by n successive Child calls starting
from the state a validation call creates (Depth 0): the model of the
states created during a validation that descends n levels. -/
def childChain : ℕ → Option ValidationState
  | 0 => some { depth := 0, instancePath := [] }
  | n + 1 =>
      match childChain n with
      | none => none
      | some vs =>
          match Child vs with
          | .ok vs2 => some vs2
          | .error _ => none

/-! ## Numeric and string keyword validators (internal/validator) -/

/-- Model of instanceFloat (internal/validator): return the instance as a
floating-point number, reporting whether the conversion succeeded.
Strings are parsed with strconv.ParseFloat, Go integer kinds convert
exactly, floats are returned unchanged, and every other value fails. -/
def instanceFloat : Instance → Option GoFloat
  | .str s => parseGoFloat s
  | .int n => some (.finite (n : ℚ))
  | .float f => some f
  | _ => none

/-- Whether an instance is a numeric value (a JSON number decoded as a
Go integer or float).  This expresses the phrase non-numeric instance of
the specification; it is deliberately not the same as instanceFloat
succeeding, because instanceFloat also accepts numeric strings. -/
def isNumericInstance : Instance → Bool
  | .int _ => true
  | .float _ => true
  | _ => false

/-- Whether an instance is a Go string. -/
def isStringInstance : Instance → Bool
  | .str _ => true
  | _ => false

/-- Model of ValidateMultipleOf.  Error message interpolation of the
instance and argument values (%v) is abbreviated to the fixed part of
the format string, as no claim depends on message text. -/
def ValidateMultipleOf (arg : GoFloat) (inst : Instance) : Option GoErr :=
  match instanceFloat inst with
  | none => none
  | some f =>
      let quo := f.div arg
      if ¬ GoFloat.goEq quo quo.trunc ∨ quo.isInf then
        some (.vErr { message := "\"multipleof\" failed: value is not a multiple of the argument"
                      keywordLocation := "", instanceLocation := "" })
      else none

/-- Model of the Go float64 < comparison: false when either side is NaN. -/
def GoFloat.lt : GoFloat → GoFloat → Bool
  | .nan, _ => false
  | _, .nan => false
  | .finite a, .finite b => decide (a < b)
  | .finite _, .inf b => !b
  | .inf a, .finite _ => a
  | .inf a, .inf b => a && !b

/-- Model of the Go float64 <= comparison: false when either side is NaN. -/
def GoFloat.le (a b : GoFloat) : Bool :=
  GoFloat.lt a b || GoFloat.goEq a b

/-- Model of ValidateMaximum. -/
def ValidateMaximum (arg : GoFloat) (inst : Instance) : Option GoErr :=
  match instanceFloat inst with
  | none => none
  | some f =>
      if GoFloat.lt arg f then
        some (.vErr { message := "value is larger than \"maximum\" limit"
                      keywordLocation := "", instanceLocation := "" })
      else none

/-- Model of ValidateExclusiveMaximum. -/
def ValidateExclusiveMaximum (arg : GoFloat) (inst : Instance) : Option GoErr :=
  match instanceFloat inst with
  | none => none
  | some f =>
      if GoFloat.le arg f then
        some (.vErr { message := "value is larger than \"exclusiveMaximum\" limit"
                      keywordLocation := "", instanceLocation := "" })
      else none

/-- Model of ValidateMinimum. -/
def ValidateMinimum (arg : GoFloat) (inst : Instance) : Option GoErr :=
  match instanceFloat inst with
  | none => none
  | some f =>
      if GoFloat.lt f arg then
        some (.vErr { message := "value is larger than \"minimum\" limit"
                      keywordLocation := "", instanceLocation := "" })
      else none

/-- Model of ValidateExclusiveMinimum. -/
def ValidateExclusiveMinimum (arg : GoFloat) (inst : Instance) : Option GoErr :=
  match instanceFloat inst with
  | none => none
  | some f =>
      if GoFloat.le f arg then
        some (.vErr { message := "value is larger than \"exclusiveMinimum\" limit"
                      keywordLocation := "", instanceLocation := "" })
      else none

/-- Model of ValidateMaxLength.  A negative argument is a schema error
(plain error from fmt.Errorf); Go counts a string in runes, modelled by
the number of characters of the Lean string. -/
def ValidateMaxLength (arg : ℤ) (inst : Instance) : Option GoErr :=
  if arg < 0 then
    some (.plain "\"maxLength\" argument is negative, must be non-negative")
  else
    match inst with
    | .str s =>
        if arg < (s.length : ℤ) then
          some (.vErr { message := "value too long for \"maxLength\" argument"
                        keywordLocation := "", instanceLocation := "" })
        else none
    | _ => none

/-- Model of ValidateMinLength.  The negative-argument message in the
source says maxLength (a copy-paste slip kept here), and it is a plain
error either way. -/
def ValidateMinLength (arg : ℤ) (inst : Instance) : Option GoErr :=
  if arg < 0 then
    some (.plain "\"maxLength\" argument is negative, must be non-negative")
  else
    match inst with
    | .str s =>
        if (s.length : ℤ) < arg then
          some (.vErr { message := "value too short for \"minLength\" argument"
                        keywordLocation := "", instanceLocation := "" })
        else none
    | _ => none

/-! ## The type keyword (internal/validator ValidateType) -/

/-- Model of types.PartStringOrStrings: a single string or a list of
strings; the list field set to some corresponds to a non-nil Go slice. -/
structure PartStringOrStrings where
  s : String
  ss : Option (List String)
deriving DecidableEq, Repr

/-- Model of the inner match function of ValidateType.  object matches
JSON objects (Go structs, which also match, are represented as objects);
array matches arrays; number matches Go integer and float kinds;
integer additionally matches floats whose truncation equals the value
and that are not infinite.  An unsupported type string is a plain error. -/
def typeMatch (typ : String) (inst : Instance) : Except GoErr Bool :=
  if typ = "null" then
    .ok (match inst with | .null => true | _ => false)
  else if typ = "boolean" then
    .ok (match inst with | .bool _ => true | _ => false)
  else if typ = "object" then
    .ok (match inst with | .obj _ => true | _ => false)
  else if typ = "array" then
    .ok (match inst with | .arr _ => true | _ => false)
  else if typ = "number" then
    .ok (match inst with | .int _ => true | .float _ => true | _ => false)
  else if typ = "string" then
    .ok (match inst with | .str _ => true | _ => false)
  else if typ = "integer" then
    .ok (match inst with
         | .int _ => true
         | .float f => GoFloat.goEq f.trunc f && !f.isInf
         | _ => false)
  else
    .error (.plain "\"type\" argument is an unsupported string")

/-- The validation error of ValidateType; the message interpolation of
typeForError is abbreviated. -/
def typeMismatchVE : VError :=
  { message := "instance has the wrong type", keywordLocation := "", instanceLocation := "" }

/-- The list branch of ValidateType: succeed on the first matching type
name, propagate a match error, and report a mismatch after the loop. -/
def validateTypeList : List String → Instance → Option GoErr
  | [], _ => some (.vErr typeMismatchVE)
  | t :: ts, inst =>
      match typeMatch t inst with
      | .error e => some e
      | .ok true => none
      | .ok false => validateTypeList ts inst

/-- Model of ValidateType. -/
def ValidateType (arg : PartStringOrStrings) (inst : Instance) : Option GoErr :=
  match arg.ss with
  | none =>
      match typeMatch arg.s inst with
      | .error e => some e
      | .ok true => none
      | .ok false => some (.vErr typeMismatchVE)
  | some ss => validateTypeList ss inst

/-! ## JSON values

Model of the generic value tree produced by encoding/json.Unmarshal into
an empty interface: objects become string-keyed maps (modelled as
association lists; Go map iteration order is arbitrary, and the only
consumers either sort keys or are order-insensitive up to the later
Finalize sort), arrays become slices, numbers become float64. -/

/-- Model of a decoded generic JSON value. -/
inductive J where
  | null
  | bool (b : Bool)
  | num (q : ℚ)
  | str (s : String)
  | arr (xs : List J)
  | obj (fields : List (String × J))

/-! ## The schema IR (pkg/types Schema, Part, PartValue)

A Part carries its Keyword and value.  Of the Go Keyword struct only the
Name and Generated fields influence the embedded operations: the
validators are dispatched by name, and navigation (Children, DerefSchema,
marshalSchema) switches on ArgType, which for every schema built by this
package agrees with the shape of the value, so the embedding switches on
the value constructor directly.  Pointers to shared sub-schemas are
modelled by paths from the root (the arena modelling sanctioned by the
specification), carried by the values of the generated reference parts. -/

mutual

/-- Model of the target of a generated reference part: either a path to a
node of the root schema tree (the model of a *Schema pointer into the
tree), or a schema synthesized during navigation of unknown-keyword
values. -/
inductive RefTarget where
  | path (p : List String)
  | boxed (s : Schema)

/-- Model of types.Schema: the ordered parts of one schema node. -/
inductive Schema where
  | mk (parts : List Part)

/-- Model of types.Part together with the Name and Generated fields of
its Keyword. -/
inductive Part where
  | mk (name : String) (generated : Bool) (val : PartValue)

/-- Model of types.PartValue.  The last two constructors carry the values
of generated parts: refTarget for $$resolvedRef / $$resolvedDynamicRef /
$$detachedDynamicRef (a PartSchema holding a pointer in Go), and
dynAnchorVal for $$recordDynamicAnchor / $$clearDynamicAnchor (a PartAny
holding a recordDynamicAnchor pair in Go). -/
inductive PartValue where
  | bool (b : Bool)
  | str (s : String)
  | strs (ss : List String)
  | strOrStrs (v : PartStringOrStrings)
  | int (n : ℤ)
  | float (f : GoFloat)
  | schema (s : Schema)
  | schemas (ss : List Schema)
  | mapSchema (m : List (String × Schema))
  | schemaOrSchemas (s : Option Schema) (ss : List Schema)
  | mapArrayOrSchema (m : List (String × ArrayOrSchema))
  | anyV (j : J)
  | refTarget (t : RefTarget)
  | dynAnchorVal (anchor : String) (target : RefTarget)

/-- Model of types.ArrayOrSchema. -/
inductive ArrayOrSchema where
  | arr (ss : List String)
  | schema (s : Schema)

end

/-- The parts of a schema node. -/
def Schema.parts : Schema → List Part
  | .mk ps => ps

/-- The keyword name of a part. -/
def Part.name : Part → String
  | .mk n _ _ => n

/-- The generated flag of a part. -/
def Part.generated : Part → Bool
  | .mk _ g _ => g

/-- The value of a part. -/
def Part.val : Part → PartValue
  | .mk _ _ v => v

/-- Model of Schema.LookupKeyword: the value of the first non-generated
part with the given keyword name, if any. -/
def Schema.LookupKeyword (s : Schema) (keyword : String) : Option PartValue :=
  (s.parts.find? (fun p => !p.generated && p.name == keyword)).map Part.val

/-! ## The contains keyword (internal/validator ValidateContains)

ValidateContains calls arg.S.ValidateSubSchema on each array element and
only tests its result against nil, so the recursive evaluation of the
contains subschema is embedded as a function argument from instances to
validation outcomes. -/

/-- The scan of ValidateContains for a minContains part with value 0 in
the parts of the current schema node after the current keyword index. -/
def hasMinContainsZeroAfter (parts : List Part) (index : ℕ) : Bool :=
  (parts.drop (index + 1)).any
    (fun p => p.name == "minContains" &&
      (match p.val with | .int n => n == 0 | _ => false))

/-- The element loop of ValidateContains: thread the success flag and
collect the indices of matching elements. -/
def containsLoop (sub : Instance → Option GoErr) (xs : List Instance) (i : ℕ)
    (topOK : Bool) (matched : List ℕ) : Bool × List ℕ :=
  match xs with
  | [] => (topOK, matched)
  | x :: rest =>
      match sub x with
      | none => containsLoop sub rest (i + 1) true (matched ++ [i])
      | some _ => containsLoop sub rest (i + 1) topOK matched

/-- Model of ValidateContains.  The first component is the returned
error; the second is the contains note (the list of matched indices)
appended on success.  Non-array instances return nil early and append no
note. -/
def ValidateContains (sub : Instance → Option GoErr) (stateParts : List Part)
    (stateIndex : ℕ) (inst : Instance) : Option GoErr × List ℕ :=
  let hasMCZero := hasMinContainsZeroAfter stateParts stateIndex
  match inst with
  | .arr xs =>
      let r := containsLoop sub xs 0 hasMCZero []
      if !r.1 then
        (some (.vErr { message := "no array element matches \"contains\" schema"
                       keywordLocation := "", instanceLocation := "" }), [])
      else
        (none, r.2)
  | _ => (none, [])

/-! ## Vocabularies and the JSON builder (pkg/types)

The keyword table of draft 2020-12 is produced by a code generator whose
output file is not part of the sources at hand, so builder operations
are parameterized by a vocabulary value; concrete vocabularies used in
theorems are modelled from the specification and say so. -/

/-- Model of types.ArgType. -/
inductive ArgType where
  | bool
  | str
  | strs
  | strOrStrs
  | int
  | float
  | schema
  | schemas
  | mapSchema
  | schemaOrSchemas
  | mapArrayOrSchema
  | anyT
deriving DecidableEq, Repr

/-- The Name, ArgType and Generated fields of a types.Keyword (the
Validate function is dispatched by name in this embedding). -/
structure KeywordRec where
  name : String
  argType : ArgType
  generated : Bool
deriving DecidableEq, Repr

/-- Model of types.Vocabulary: the keyword table and the keyword
comparator (the Go Cmp returns an int, modelled by Ordering). -/
structure Vocab where
  vocName : String
  schemaUri : String
  keywords : List (String × KeywordRec)
  cmp : String → String → Ordering

/-- The keyword table lookup of addKeywordFromJSON. -/
def Vocab.lookup (voc : Vocab) (k : String) : Option KeywordRec :=
  (voc.keywords.find? (fun kv => kv.1 == k)).map (fun kv => kv.2)

/-- Model of LookupVocabulary over a registry: a draft7 $schema value may
carry a trailing # that is trimmed first. -/
def lookupVocabulary (reg : List (String × Vocab)) (s : String) : Option Vocab :=
  let s2 := if s.endsWith "#" then s.dropRight 1 else s
  (reg.find? (fun kv => kv.1 == s2)).map (fun kv => kv.2)

/-- Stable insertion of one part into a comparator-sorted list. -/
def insertPartSorted (cmp : String → String → Ordering) (p : Part) :
    List Part → List Part
  | [] => [p]
  | q :: rest =>
      match cmp p.name q.name with
      | .lt => p :: q :: rest
      | _ => q :: insertPartSorted cmp p rest

/-- Model of Schema.Finalize: sort the parts with the vocabulary
comparator.  The Go sort (slices.SortFunc) is unstable and the relative
order of comparator-equal parts unspecified; the model uses the stable
insertion sort, one of the permitted outcomes.  No claim depends on the
order of comparator-equal parts. -/
def finalizeParts (cmp : String → String → Ordering) (parts : List Part) : List Part :=
  parts.foldr (insertPartSorted cmp) []

/-- Whether a J value is a string, extracting it. -/
def J.asString : J → Option String
  | .str s => some s
  | _ => none

/-- The string elements of a JSON array, failing when a non-string
element appears (the shape check of the Strings argument forms). -/
def stringsOfJList : List J → Except String (List String)
  | [] => .ok []
  | .str s :: rest => (stringsOfJList rest).map (fun ss => s :: ss)
  | _ :: _ => .error "argument item is not a string, want string"

mutual

/-- Model of Schema.buildFromJSON: extend the accumulated parts of the
receiver schema from a parsed JSON value. A bool becomes the single
$bool part; an object adds one part per keyword and then finalizes;
anything else is an error. -/
def buildFromJSONInto (fuel : ℕ) (parts : List Part) (v : J) (voc : Vocab) :
    Except String (List Part) :=
  match fuel with
  | 0 => .error "model: out of fuel"
  | fuel + 1 =>
      match v with
      | .bool b => .ok (parts ++ [.mk "$bool" false (.bool b)])
      | .obj fields =>
          match addKeywordsFromJSON fuel parts fields voc with
          | .error e => .error e
          | .ok parts2 => .ok (finalizeParts voc.cmp parts2)
      | _ => .error "unexpected type while JSON decoding schema"

/-- The keyword loop of the object case of buildFromJSON, adding parts in
field order (Go iterates the decoded map in arbitrary order; the
subsequent Finalize sort makes the outcome order-independent up to
comparator ties). -/
def addKeywordsFromJSON (fuel : ℕ) (parts : List Part) (fields : List (String × J))
    (voc : Vocab) : Except String (List Part) :=
  match fuel with
  | 0 => .error "model: out of fuel"
  | fuel + 1 =>
      match fields with
      | [] => .ok parts
      | (keyword, val) :: rest =>
          match addKeywordFromJSON fuel keyword val voc with
          | .error e => .error e
          | .ok p => addKeywordsFromJSON fuel (parts ++ [p]) rest voc

/-- Model of Schema.addKeywordFromJSON: build the part for one keyword,
dispatching on the arg type the vocabulary declares and checking the
JSON shape.  An unknown keyword becomes an inert Any part.  An Int
argument must be an integer-valued number (the int64 conversion is
idealized to the mathematical integer). -/
def addKeywordFromJSON (fuel : ℕ) (keyword : String) (val : J) (voc : Vocab) :
    Except String Part :=
  match fuel with
  | 0 => .error "model: out of fuel"
  | fuel + 1 =>
      if keyword = "" then .error "empty JSON keyword"
      else
        match voc.lookup keyword with
        | none => .ok (.mk keyword false (.anyV val))
        | some sk =>
            match sk.argType with
            | .bool =>
                match val with
                | .bool b => .ok (.mk sk.name sk.generated (.bool b))
                | _ => .error "argument has the wrong type, want bool"
            | .str =>
                match val with
                | .str s => .ok (.mk sk.name sk.generated (.str s))
                | _ => .error "argument has the wrong type, want string"
            | .strs =>
                match val with
                | .arr vals =>
                    match stringsOfJList vals with
                    | .error e => .error e
                    | .ok strs => .ok (.mk sk.name sk.generated (.strs strs))
                | _ => .error "argument has the wrong type, want array of string"
            | .strOrStrs =>
                match val with
                | .str s => .ok (.mk sk.name sk.generated (.strOrStrs ⟨s, none⟩))
                | .arr vals =>
                    match stringsOfJList vals with
                    | .error e => .error e
                    | .ok strs => .ok (.mk sk.name sk.generated (.strOrStrs ⟨"", some strs⟩))
                | _ => .error "argument has the wrong type, want string or array of string"
            | .int =>
                match val with
                | .num q =>
                    if q ≠ ((ratTrunc q : ℤ) : ℚ) then
                      .error "argument is non-integer, want integer"
                    else .ok (.mk sk.name sk.generated (.int (ratTrunc q)))
                | _ => .error "argument has the wrong type, want integer"
            | .float =>
                match val with
                | .num q => .ok (.mk sk.name sk.generated (.float (.finite q)))
                | _ => .error "argument has the wrong type, want number"
            | .schema =>
                match buildFromJSONInto fuel [] val voc with
                | .error e => .error e
                | .ok ps => .ok (.mk sk.name sk.generated (.schema (.mk ps)))
            | .schemas =>
                match val with
                | .arr vals =>
                    match buildSchemaList fuel vals voc with
                    | .error e => .error e
                    | .ok ss => .ok (.mk sk.name sk.generated (.schemas ss))
                | _ => .error "argument has the wrong type, want array"
            | .mapSchema =>
                match val with
                | .obj fields =>
                    match buildSchemaMap fuel fields voc with
                    | .error e => .error e
                    | .ok m => .ok (.mk sk.name sk.generated (.mapSchema m))
                | _ => .error "argument has the wrong type, want object"
            | .schemaOrSchemas =>
                match val with
                | .arr vals =>
                    match buildSchemaList fuel vals voc with
                    | .error e => .error e
                    | .ok ss => .ok (.mk sk.name sk.generated (.schemaOrSchemas none ss))
                | _ =>
                    match buildFromJSONInto fuel [] val voc with
                    | .error e => .error e
                    | .ok ps => .ok (.mk sk.name sk.generated (.schemaOrSchemas (some (.mk ps)) []))
            | .mapArrayOrSchema =>
                match val with
                | .obj fields =>
                    match buildArrayOrSchemaMap fuel fields voc with
                    | .error e => .error e
                    | .ok m => .ok (.mk sk.name sk.generated (.mapArrayOrSchema m))
                | _ => .error "argument has the wrong type, want object"
            | .anyT => .ok (.mk sk.name sk.generated (.anyV val))

/-- The element loop of the Schemas argument forms. -/
def buildSchemaList (fuel : ℕ) (vals : List J) (voc : Vocab) :
    Except String (List Schema) :=
  match fuel with
  | 0 => .error "model: out of fuel"
  | fuel + 1 =>
      match vals with
      | [] => .ok []
      | v :: rest =>
          match buildFromJSONInto fuel [] v voc with
          | .error e => .error e
          | .ok ps =>
              match buildSchemaList fuel rest voc with
              | .error e => .error e
              | .ok ss => .ok (Schema.mk ps :: ss)

/-- The entry loop of the MapSchema argument form. -/
def buildSchemaMap (fuel : ℕ) (fields : List (String × J)) (voc : Vocab) :
    Except String (List (String × Schema)) :=
  match fuel with
  | 0 => .error "model: out of fuel"
  | fuel + 1 =>
      match fields with
      | [] => .ok []
      | (k, v) :: rest =>
          match buildFromJSONInto fuel [] v voc with
          | .error e => .error e
          | .ok ps =>
              match buildSchemaMap fuel rest voc with
              | .error e => .error e
              | .ok m => .ok ((k, Schema.mk ps) :: m)

/-- The entry loop of the MapArrayOrSchema argument form (the draft7
dependencies shape): each entry is a bool or object (a schema) or an
array of strings. -/
def buildArrayOrSchemaMap (fuel : ℕ) (fields : List (String × J)) (voc : Vocab) :
    Except String (List (String × ArrayOrSchema)) :=
  match fuel with
  | 0 => .error "model: out of fuel"
  | fuel + 1 =>
      match fields with
      | [] => .ok []
      | (k, v) :: rest =>
          let entry : Except String ArrayOrSchema :=
            match v with
            | .bool b =>
                match buildFromJSONInto fuel [] (.bool b) voc with
                | .error e => .error e
                | .ok ps => .ok (ArrayOrSchema.schema (.mk ps))
            | .obj fs =>
                match buildFromJSONInto fuel [] (.obj fs) voc with
                | .error e => .error e
                | .ok ps => .ok (ArrayOrSchema.schema (.mk ps))
            | .arr vals =>
                match stringsOfJList vals with
                | .error e => .error e
                | .ok strs => .ok (ArrayOrSchema.arr strs)
            | _ => .error "argument item is not a schema or array of strings"
          match entry with
          | .error e => .error e
          | .ok a =>
              match buildArrayOrSchemaMap fuel rest voc with
              | .error e => .error e
              | .ok m => .ok ((k, a) :: m)

end

/-- Model of Schema.buildTopFromJSON: pull out a $schema member to pick
the vocabulary (falling back to the schemaID argument and then the
default vocabulary, appending a synthetic $schema part in the default
case), then build the rest.  The registry and default vocabulary are
passed explicitly (they are process globals in Go). -/
def buildTopFromJSON (fuel : ℕ) (reg : List (String × Vocab)) (defv : Option Vocab)
    (schemaID : String) (v : J) : Except String (Schema × Vocab) :=
  let verFields : Except String (String × List Part × J) :=
    match v with
    | .obj fields =>
        let sv? : Option J := (fields.find? (fun kv => kv.1 == "$schema")).map (fun kv => kv.2)
        match sv? with
        | some (.str sv) =>
            .ok (sv, [Part.mk "$schema" false (.str sv)],
              J.obj (fields.filter (fun kv => !(kv.1 == "$schema"))))
        | some _ => .error "$schema does not have a string value"
        | none => .ok ("", [], v)
    | _ => .ok ("", [], v)
  match verFields with
  | .error e => .error e
  | .ok (version0, parts0, v2) =>
      let version := if version0 = "" ∧ schemaID ≠ "" then schemaID else version0
      let vocAndParts : Except String (Vocab × List Part) :=
        if version = "" then
          match defv with
          | none => .error "JSON schema version not specified and there is no default"
          | some voc =>
              .ok (voc, parts0 ++ [Part.mk "$schema" false (.str voc.schemaUri)])
        else
          match lookupVocabulary reg version with
          | none => .error "JSON schema version not recognized"
          | some voc => .ok (voc, parts0)
      match vocAndParts with
      | .error e => .error e
      | .ok (voc, parts1) =>
          match buildFromJSONInto fuel parts1 v2 voc with
          | .error e => .error e
          | .ok ps => .ok (Schema.mk ps, voc)

/-! ## JSON pointer navigation (pkg/jsonpointer DerefSchema) -/

/-- Replace every occurrence of a two-character pattern by one character
in a character list (the shape of the strings.ReplaceAll calls of
decodeToken). -/
def replacePair (a b r : Char) : List Char → List Char
  | [] => []
  | [x] => [x]
  | x :: y :: rest =>
      if x = a ∧ y = b then r :: replacePair a b r rest
      else x :: replacePair a b r (y :: rest)

/-- Model of decodeToken: unmangle ~1 and ~0, in that order. -/
def decodeToken (tok : String) : String :=
  .mk (replacePair '~' '0' '~' (replacePair '~' '1' '/' tok.data))

/-- Model of strings.Split on the slash separator, over the character
list of the string (the empty string splits to one empty token, as in
Go). -/
def splitSlash : List Char → List Char → List String
  | [], cur => [.mk cur.reverse]
  | '/' :: rest, cur => .mk cur.reverse :: splitSlash rest []
  | c :: rest, cur => splitSlash rest (c :: cur)

/-- Model of strconv.Atoi on the token of an array index: an optional
sign followed by at least one digit and nothing else (the int range
check of Go is idealized away). -/
def parseAtoi (s : String) : Option ℤ :=
  let cs := s.toList
  let (sgn, body) :=
    match cs with
    | '+' :: t => ((1 : ℤ), t)
    | '-' :: t => ((-1 : ℤ), t)
    | t => ((1 : ℤ), t)
  let (v, n, rest) := takeDigits body 0 0
  if n = 0 ∨ rest ≠ [] then none
  else some (sgn * v)

/-- The scan of DerefSchema for the first non-generated part with the
token as its keyword name. -/
def findPartNamed (parts : List Part) (tok : String) : Option Part :=
  parts.find? (fun p => !p.generated && p.name == tok)

/-- Assoc-list lookup for map-valued parts. -/
def assocFind {α : Type} (m : List (String × α)) (k : String) : Option α :=
  (m.find? (fun kv => kv.1 == k)).map (fun kv => kv.2)

mutual

/-- Model of DerefSchema after token splitting: walk the token list.  A
token that names no keyword of the current node is skipped silently (the
parts scan has no failure branch), which the claims call out.  Schemas-
and map-valued parts consume one more token as index or key with
distinct errors for out-of-range indices and missing keys; unknown
keyword values are navigated as generic JSON (the conv argument stands
for the SchemaFromJSON conversion applied to object or bool values).
Besides the schema Go returns by pointer, the model also returns the
pointer's meaning: the Children-name path of the result from the start
node when the result is inside the tree, and none once navigation
entered a schema synthesized from an unknown keyword value. -/
def derefToks (fuel : ℕ) (conv : J → Except String Schema) (s : Schema)
    (p : Option (List String)) :
    List String → Except String (Schema × Option (List String))
  | [] => .ok (s, p)
  | tok0 :: rest =>
      match fuel with
      | 0 => .error "model: out of fuel"
      | fuel + 1 =>
          let tok := decodeToken tok0
          match findPartNamed s.parts tok with
          | none => derefToks fuel conv s p rest
          | some part =>
              match part.val with
              | .schema sub =>
                  derefToks fuel conv sub (p.map (fun pp => pp ++ [part.name])) rest
              | .schemas ss =>
                  match rest with
                  | [] => .error "when dereferencing pointer expected array index after token"
                  | t :: rest2 =>
                      match parseAtoi (decodeToken t) with
                      | none => .error "when dereferencing pointer got token, expected array index"
                      | some idx =>
                          if h : idx < 0 ∨ (ss.length : ℤ) ≤ idx then
                            .error "when dereferencing pointer array index out of range"
                          else
                            derefToks fuel conv (ss.get ⟨idx.toNat, by omega⟩)
                              (p.map (fun pp => pp ++ [part.name ++ "/" ++ toString idx.toNat]))
                              rest2
              | .mapSchema m =>
                  match rest with
                  | [] => .error "when dereferencing pointer expected map key after token"
                  | t :: rest2 =>
                      match assocFind m (decodeToken t) with
                      | none => .error "when dereferencing pointer map key not present"
                      | some sub =>
                          derefToks fuel conv sub
                            (p.map (fun pp => pp ++ [part.name ++ "/" ++ decodeToken t]))
                            rest2
              | .schemaOrSchemas sOpt ss =>
                  match sOpt with
                  | some sub =>
                      derefToks fuel conv sub (p.map (fun pp => pp ++ [part.name])) rest
                  | none =>
                      match rest with
                      | [] => .error "when dereferencing pointer expected array index after token"
                      | t :: rest2 =>
                          match parseAtoi (decodeToken t) with
                          | none =>
                              .error "when dereferencing pointer got token, expected array index"
                          | some idx =>
                              if h : idx < 0 ∨ (ss.length : ℤ) ≤ idx then
                                .error "when dereferencing pointer array index out of range"
                              else
                                derefToks fuel conv (ss.get ⟨idx.toNat, by omega⟩)
                                  (p.map (fun pp => pp ++ [part.name ++ "/" ++ toString idx.toNat]))
                                  rest2
              | .mapArrayOrSchema m =>
                  match rest with
                  | [] => .error "when dereferencing pointer expected map key after token"
                  | t :: rest2 =>
                      match assocFind m (decodeToken t) with
                      | none => .error "when dereferencing pointer map key not present"
                      | some (.schema sub) =>
                          derefToks fuel conv sub
                            (p.map (fun pp => pp ++ [part.name ++ "/" ++ decodeToken t]))
                            rest2
                      | some (.arr _) => .error "when dereferencing pointer map key is not a schema"
              | .anyV j => derefAnyLoop fuel conv j rest
              | _ => .error "when dereferencing pointer unexpected part type"

/-- The resolve loop of the Any branch of DerefSchema: walk the generic
JSON value, consuming an index token per array level, and convert a bool
or object into a schema to continue navigation.  The result is a
synthesized schema with no place in the original tree, so the path
component is none from here on. -/
def derefAnyLoop (fuel : ℕ) (conv : J → Except String Schema) (j : J)
    (toks : List String) : Except String (Schema × Option (List String)) :=
  match fuel with
  | 0 => .error "model: out of fuel"
  | fuel + 1 =>
      match j with
      | .bool b =>
          match conv (.bool b) with
          | .error _ => .error "when dereferencing pointer failed to resolve unrecognized schema"
          | .ok sub => derefToks fuel conv sub none toks
      | .obj fields =>
          match conv (.obj fields) with
          | .error _ => .error "when dereferencing pointer failed to resolve unrecognized schema"
          | .ok sub => derefToks fuel conv sub none toks
      | .arr xs =>
          match toks with
          | [] => .error "when dereferencing pointer expected array index after token"
          | t :: rest2 =>
              match parseAtoi (decodeToken t) with
              | none => .error "when dereferencing pointer for token, expected array index"
              | some idx =>
                  if h : idx < 0 ∨ (xs.length : ℤ) ≤ idx then
                    .error "when dereferencing pointer array index out of range"
                  else
                    derefAnyLoop fuel conv (xs.get ⟨idx.toNat, by omega⟩) rest2
      | _ => .error "when dereferencing pointer unexpected type"

end

/-- The token list of a JSON pointer: strip one leading slash and split
on slashes. -/
def pointerToks (pointer : String) : List String :=
  let p : List Char :=
    match pointer.data with
    | '/' :: rest => rest
    | cs => cs
  splitSlash p []

/-- Model of jsonpointer.DerefSchema: strip one leading slash, split on
slashes, and walk the tokens (dropping the path component of the model,
which stands for the pointer identity Go keeps implicitly). -/
def DerefSchema (fuel : ℕ) (conv : J → Except String Schema) (root : Schema)
    (pointer : String) : Except String Schema :=
  (derefToks fuel conv root (some []) (pointerToks pointer)).map (fun r => r.1)

/-! ## Marshalling (pkg/types marshalSchema) -/

/-- One character of the JSON string encoding of encoding/json (which
escapes the quote, the backslash, control characters, and by default the
HTML-significant characters).  Characters above the control range are
emitted as themselves; the surrogate handling of invalid UTF-8 is not
modelled. -/
def encodeChar (c : Char) : String :=
  if c = '"' then "\\\""
  else if c = '\\' then "\\\\"
  else if c = '\n' then "\\n"
  else if c = '\r' then "\\r"
  else if c = '\t' then "\\t"
  else if c = '<' then "\\u003c"
  else if c = '>' then "\\u003e"
  else if c = '&' then "\\u0026"
  else if c.toNat < 32 then
    "\\u00" ++ String.singleton (Nat.digitChar (c.toNat / 16))
      ++ String.singleton (Nat.digitChar (c.toNat % 16))
  else String.singleton c

/-- Model of encodeString: the JSON encoding of a string. -/
def encodeString (s : String) : String :=
  "\"" ++ String.join (s.data.map encodeChar) ++ "\""

/-- Scale a nonnegative rational by powers of ten until it is integral,
returning the exponent and the integer.  Any float64 value has a
terminating decimal expansion, so 400 steps always suffice for values a
Go program can hold; the fallback of the caller is unreachable for
them. -/
def findDecExpAux (a : ℚ) (k fuel : ℕ) : Option (ℕ × ℤ) :=
  match fuel with
  | 0 => none
  | fuel + 1 =>
      if a.den = 1 then some (k, a.num)
      else findDecExpAux (a * 10) (k + 1) fuel

/-- Decimal rendering of a rational, the model of the shortest-decimal
formatting of fmt %g and encoding/json on the exact-rational float
model.  Go may choose exponent notation for very large or small values;
this rendering always uses plain decimal notation, which denotes the
same number (no claim depends on the formatting choice). -/
def ratDecimalString (q : ℚ) : String :=
  let neg := decide (q < 0)
  let a := if q < 0 then -q else q
  match findDecExpAux a 0 400 with
  | none => toString q.num ++ "/" ++ toString q.den
  | some (0, n) => (if neg then "-" else "") ++ toString n
  | some (k, n) =>
      let ds := toString n
      let ds2 := if ds.length < k + 1 then
          String.join (List.replicate (k + 1 - ds.length) "0") ++ ds
        else ds
      (if neg then "-" else "") ++ ds2.take (ds2.length - k) ++ "."
        ++ ds2.drop (ds2.length - k)

/-- The number rendering of marshalSchema for a PartFloat: emit an
integer-valued float as an integer (in Go via the int64 and uint64
conversion checks, collapsed here by the exact integer model), otherwise
per %g.  Infinities and NaN cannot be produced by parsing JSON. -/
def floatMarshalString (f : GoFloat) : String :=
  match f with
  | .finite q =>
      if q = ((ratTrunc q : ℤ) : ℚ) then toString (ratTrunc q)
      else ratDecimalString q
  | .inf b => if b then "-Inf" else "+Inf"
  | .nan => "NaN"

/-- Comma-joined rendering of a list of already-rendered pieces. -/
def joinComma : List String → String
  | [] => ""
  | [s] => s
  | s :: rest => s ++ "," ++ joinComma rest

/-- Stable insertion by key, for the sorted map renderings. -/
def insertKeySorted {α : Type} (p : String × α) :
    List (String × α) → List (String × α)
  | [] => [p]
  | q :: rest =>
      match compare p.1 q.1 with
      | .lt => p :: q :: rest
      | _ => q :: insertKeySorted p rest

/-- Sort assoc-list entries by key (the model of the key sorts of
marshalSchema and of the encoding/json map rendering). -/
def sortByKey {α : Type} (l : List (String × α)) : List (String × α) :=
  l.foldr insertKeySorted []

mutual

/-- Model of the encoding/json rendering of a generic JSON value, used
by marshalSchema for Any-valued parts; map keys are sorted as
encoding/json does. -/
def jsonEncodeJ (fuel : ℕ) (j : J) : Except String String :=
  match fuel with
  | 0 => .error "model: out of fuel"
  | fuel + 1 =>
      match j with
      | .null => .ok "null"
      | .bool b => .ok (if b then "true" else "false")
      | .num q => .ok (floatMarshalString (.finite q))
      | .str s => .ok (encodeString s)
      | .arr xs =>
          match jsonEncodeJList fuel xs with
          | .error e => .error e
          | .ok ss => .ok ("[" ++ joinComma ss ++ "]")
      | .obj fields =>
          match jsonEncodeJFields fuel (sortByKey fields) with
          | .error e => .error e
          | .ok ss => .ok ("\x7b" ++ joinComma ss ++ "\x7d")

/-- Array elements of the generic JSON rendering. -/
def jsonEncodeJList (fuel : ℕ) (xs : List J) : Except String (List String) :=
  match fuel with
  | 0 => .error "model: out of fuel"
  | fuel + 1 =>
      match xs with
      | [] => .ok []
      | x :: rest =>
          match jsonEncodeJ fuel x with
          | .error e => .error e
          | .ok s =>
              match jsonEncodeJList fuel rest with
              | .error e => .error e
              | .ok ss => .ok (s :: ss)

/-- Object members of the generic JSON rendering. -/
def jsonEncodeJFields (fuel : ℕ) (fields : List (String × J)) :
    Except String (List String) :=
  match fuel with
  | 0 => .error "model: out of fuel"
  | fuel + 1 =>
      match fields with
      | [] => .ok []
      | (k, v) :: rest =>
          match jsonEncodeJ fuel v with
          | .error e => .error e
          | .ok s =>
              match jsonEncodeJFields fuel rest with
              | .error e => .error e
              | .ok ss => .ok ((encodeString k ++ ":" ++ s) :: ss)

end

/-- Model of Schema.isBoolSchema: scan the parts, skipping $schema and
generated parts; any other part than $bool makes the schema non-bool,
and the last $bool part gives the value.  (A $bool part with a non-bool
value would be a Go cast panic; it cannot be built.) -/
def isBoolSchemaF : List Part → Bool × Bool → Bool × Bool
  | [], acc => acc
  | p :: rest, acc =>
      if (p.name == "$schema" && !p.generated) || p.generated then
        isBoolSchemaF rest acc
      else if p.name == "$bool" then
        match p.val with
        | .bool b => isBoolSchemaF rest (true, b)
        | _ => (false, false)
      else (false, false)

mutual

/-- Model of Schema.marshalSchema: a bool schema is rendered as a bare
true or false; otherwise the non-generated parts are rendered in order
as a JSON object. -/
def marshalSchemaF (fuel : ℕ) (s : Schema) : Except String String :=
  match fuel with
  | 0 => .error "model: out of fuel"
  | fuel + 1 =>
      let ib := isBoolSchemaF s.parts (false, false)
      if ib.1 then .ok (if ib.2 then "true" else "false")
      else
        match marshalPartsF fuel (s.parts.filter (fun p => !p.generated)) with
        | .error e => .error e
        | .ok body => .ok ("\x7b" ++ body ++ "\x7d")

/-- The part loop of marshalSchema, with the comma handling of the first
flag. -/
def marshalPartsF (fuel : ℕ) (parts : List Part) : Except String String :=
  match fuel with
  | 0 => .error "model: out of fuel"
  | fuel + 1 =>
      match parts with
      | [] => .ok ""
      | [p] => marshalOnePartF fuel p
      | p :: rest =>
          match marshalOnePartF fuel p with
          | .error e => .error e
          | .ok s1 =>
              match marshalPartsF fuel rest with
              | .error e => .error e
              | .ok s2 => .ok (s1 ++ "," ++ s2)

/-- One part of marshalSchema: the encoded keyword name, a colon, and
the value rendering of the Go type switch.  The list branch of the
schema-or-schemas case reproduces the source faithfully: it writes the
element schemas without comma separators.  Generated-only part values
fall to the default error of the switch. -/
def marshalOnePartF (fuel : ℕ) (p : Part) : Except String String :=
  match fuel with
  | 0 => .error "model: out of fuel"
  | fuel + 1 =>
      let pre := encodeString p.name ++ ":"
      match p.val with
      | .bool b => .ok (pre ++ (if b then "true" else "false"))
      | .str s => .ok (pre ++ encodeString s)
      | .strs ss => .ok (pre ++ "[" ++ joinComma (ss.map encodeString) ++ "]")
      | .strOrStrs v =>
          match v.ss with
          | none => .ok (pre ++ encodeString v.s)
          | some ss => .ok (pre ++ "[" ++ joinComma (ss.map encodeString) ++ "]")
      | .int n => .ok (pre ++ toString n)
      | .float f => .ok (pre ++ floatMarshalString f)
      | .schema sub =>
          match marshalSchemaF fuel sub with
          | .error e => .error e
          | .ok s => .ok (pre ++ s)
      | .schemas ss =>
          match marshalSchemaListF fuel ss with
          | .error e => .error e
          | .ok rendered => .ok (pre ++ "[" ++ joinComma rendered ++ "]")
      | .mapSchema m =>
          match marshalSchemaMapF fuel (sortByKey m) with
          | .error e => .error e
          | .ok rendered => .ok (pre ++ "\x7b" ++ joinComma rendered ++ "\x7d")
      | .schemaOrSchemas sOpt ss =>
          match sOpt with
          | some sub =>
              match marshalSchemaF fuel sub with
              | .error e => .error e
              | .ok s => .ok (pre ++ s)
          | none =>
              match marshalSchemaListF fuel ss with
              | .error e => .error e
              | .ok rendered => .ok (pre ++ "[" ++ String.join rendered ++ "]")
      | .mapArrayOrSchema m =>
          match marshalArrayOrSchemaMapF fuel (sortByKey m) with
          | .error e => .error e
          | .ok rendered => .ok (pre ++ "\x7b" ++ joinComma rendered ++ "\x7d")
      | .anyV j =>
          match jsonEncodeJ fuel j with
          | .error e => .error e
          | .ok s => .ok (pre ++ s ++ "\n")
      | .refTarget _ => .error "schema.MarshalJSON: unexpected type"
      | .dynAnchorVal _ _ => .error "schema.MarshalJSON: unexpected type"

/-- The renderings of a list of schemas. -/
def marshalSchemaListF (fuel : ℕ) (ss : List Schema) : Except String (List String) :=
  match fuel with
  | 0 => .error "model: out of fuel"
  | fuel + 1 =>
      match ss with
      | [] => .ok []
      | s :: rest =>
          match marshalSchemaF fuel s with
          | .error e => .error e
          | .ok r =>
              match marshalSchemaListF fuel rest with
              | .error e => .error e
              | .ok rs => .ok (r :: rs)

/-- The member renderings of a map of schemas (already key-sorted). -/
def marshalSchemaMapF (fuel : ℕ) (m : List (String × Schema)) :
    Except String (List String) :=
  match fuel with
  | 0 => .error "model: out of fuel"
  | fuel + 1 =>
      match m with
      | [] => .ok []
      | (k, s) :: rest =>
          match marshalSchemaF fuel s with
          | .error e => .error e
          | .ok r =>
              match marshalSchemaMapF fuel rest with
              | .error e => .error e
              | .ok rs => .ok ((encodeString k ++ ":" ++ r) :: rs)

/-- The member renderings of a dependencies-shaped map (already
key-sorted). -/
def marshalArrayOrSchemaMapF (fuel : ℕ) (m : List (String × ArrayOrSchema)) :
    Except String (List String) :=
  match fuel with
  | 0 => .error "model: out of fuel"
  | fuel + 1 =>
      match m with
      | [] => .ok []
      | (k, a) :: rest =>
          let rendered : Except String String :=
            match a with
            | .schema s => marshalSchemaF fuel s
            | .arr ss => .ok ("[" ++ joinComma (ss.map encodeString) ++ "]")
          match rendered with
          | .error e => .error e
          | .ok r =>
              match marshalArrayOrSchemaMapF fuel rest with
              | .error e => .error e
              | .ok rs => .ok ((encodeString k ++ ":" ++ r) :: rs)

end

/-! ## Reference resolution (pkg/draft202012 builder.go)

resolveSchema runs two passes over the schema tree: resolveIDs collects
$id URIs and anchors and wraps dynamic-anchor scopes in generated
record/clear parts, and resolveRefs replaces $ref and $dynamicRef by
generated parts pointing at their targets.  Go mutates the tree and
keys its side tables by *Schema pointers; the embedding rebuilds the
tree and keys the tables by Children-name paths from the root, which
identify nodes uniquely.  net/url is modelled just deeply enough for
the resolver: a URL is the text before the fragment separator plus the
fragment, IsAbs is approximated by the presence of a scheme separator,
and ResolveReference merges only fragment-only references (a reference
with its own non-fragment text replaces the base); percent escaping is
not modelled.  These simplifications decide only which URI strings are
registered and looked up, not the placement of generated parts.  The
metaschema table and the remote loader are modelled as absent (the
default ResolveOpts), so unknown absolute URIs fail as in Go without a
Loader. -/

/-- Model of net/url.URL as the resolver uses it: the text before the
fragment separator, and the fragment. -/
structure URL where
  base : String
  frag : String
deriving DecidableEq, Repr

/-- Split a character list at the first fragment separator. -/
def splitFrag : List Char → List Char → String × String
  | [], acc => (.mk acc.reverse, "")
  | '#' :: rest, acc => (.mk acc.reverse, .mk rest)
  | c :: rest, acc => splitFrag rest (c :: acc)

/-- Model of url.Parse: split at the first fragment separator (parse
errors and percent decoding are not modelled). -/
def parseURL (s : String) : URL :=
  let r := splitFrag s.data []
  { base := r.1, frag := r.2 }

/-- Model of URL.String: rejoin the fragment when non-empty. -/
def uriToString (u : URL) : String :=
  if u.frag == "" then u.base else u.base ++ "#" ++ u.frag

/-- Whether a character list contains the scheme separator. -/
def hasSchemeSep : List Char → Bool
  | ':' :: '/' :: '/' :: _ => true
  | _ :: rest => hasSchemeSep rest
  | [] => false

/-- Model of URL.IsAbs: the URL names a scheme, approximated by the
presence of the scheme separator in the non-fragment text. -/
def URL.isAbs (u : URL) : Bool :=
  hasSchemeSep u.base.data

/-- Model of URL.ResolveReference as the resolver exercises it: a
fragment-only reference keeps the base text and replaces the fragment;
any other reference replaces the whole URL. -/
def resolveReference (b ref : URL) : URL :=
  if ref.base == "" then { base := b.base, frag := ref.frag } else ref

/-- Model of anchorData: the path of the anchored node and whether the
anchor was a $dynamicAnchor. -/
structure AnchorData where
  path : List String
  dynamic : Bool
deriving DecidableEq, Repr

/-- Model of resolveState: URIs registered by $id (keyed by URI string),
anchors (keyed by anchor URI string), and the URIs remembered for nodes
carrying $ref or $dynamicRef (keyed by node path; the Go map keyed by
*Schema).  Go map overwrite is modelled by prepending, with lookups
taking the first hit. -/
structure RState where
  uris : List (String × List String)
  anchors : List (String × AnchorData)
  refUris : List (List String × Option URL)
deriving Repr

/-- The empty resolution state resolveSchema starts from. -/
def emptyRState : RState :=
  { uris := [], anchors := [], refUris := [] }

/-- Model of subInfo: the current base URI and the Children-name path of
the current node. -/
structure SubInfo where
  uri : Option URL
  name : List String
deriving Repr

/-- Assoc-list lookup keyed by node path. -/
def pathFind {α : Type} (m : List (List String × α)) (k : List String) : Option α :=
  (m.find? (fun kv => kv.1 == k)).map (fun kv => kv.2)

/-- The Name field of recordDynamicAnchorKeyword. -/
def recordDynamicAnchorName : String := "$$recordDynamicAnchorKeyword"

/-- The Name field of clearDynamicAnchorKeyword. -/
def clearDynamicAnchorName : String := "$$clearDynamicAnchorKeyword"

/-- The Name field of resolvedRefKeyword. -/
def resolvedRefName : String := "$$resolvedRef"

/-- The Name field of resolvedDynamicRefKeyword. -/
def resolvedDynamicRefName : String := "$$resolvedDynamicRef"

/-- The Name field of detachedDynamicRefKeyword. -/
def detachedDynamicRefName : String := "$$detachedDynamicRef"

/-- Model of resolveID: parse the $id value, reject a fragment, resolve
against the inherited URI unless absolute, register the node under the
new URI string, and return the subInfo carrying the new URI.  The Go
type assertion on a non-string value is modelled as an error. -/
def resolveID (value : PartValue) (st : RState) (sd : SubInfo) :
    Except String (SubInfo × RState) :=
  match value with
  | .str arg =>
      let uri := parseURL arg
      if !(uri.frag == "") then .error "$id contains non-empty fragment"
      else
        let newURI : URL :=
          match sd.uri with
          | none => uri
          | some b => if uri.isAbs then uri else resolveReference b uri
        .ok ({ uri := some newURI, name := sd.name },
             { st with uris := (uriToString newURI, sd.name) :: st.uris })
  | _ => .error "model: non-string $id value"

/-- Model of resolveAnchor: build the anchor URI from the inherited base
and the anchor name, reject duplicates, and register the node path with
the dynamic flag. -/
def resolveAnchor (dynamic : Bool) (value : PartValue) (st : RState)
    (sd : SubInfo) : Except String (String × RState) :=
  match value with
  | .str anchor =>
      let b : URL :=
        match sd.uri with
        | some u => u
        | none => { base := "", frag := "" }
      if !(b.frag == "") then .error "model: base URI carries a fragment"
      else
        let anchorStr := uriToString { base := b.base, frag := anchor }
        match assocFind st.anchors anchorStr with
        | some _ => .error "duplicate anchor"
        | none =>
            .ok (anchor,
                 { st with anchors :=
                     (anchorStr, { path := sd.name, dynamic := dynamic }) :: st.anchors })
  | _ => .error "model: non-string anchor value"

/-- The parts loop of resolveIDs: handle $id, $anchor, $dynamicAnchor
and record the URI for nodes with $ref or $dynamicRef, threading the
subInfo (whose URI $id updates), the state, and the dynamic-anchor name
seen so far. -/
def scanParts : List Part → SubInfo → RState → String →
    Except String (SubInfo × RState × String)
  | [], sd, st, dyn => .ok (sd, st, dyn)
  | p :: rest, sd, st, dyn =>
      if p.name == "$id" then
        match resolveID p.val st sd with
        | .error e => .error e
        | .ok (sd2, st2) => scanParts rest sd2 st2 dyn
      else if p.name == "$anchor" then
        match resolveAnchor false p.val st sd with
        | .error e => .error e
        | .ok (_, st2) => scanParts rest sd st2 dyn
      else if p.name == "$dynamicAnchor" then
        if !(dyn == "") then .error "more than one $dynamicAnchor"
        else
          match resolveAnchor true p.val st sd with
          | .error e => .error e
          | .ok (anchor, st2) => scanParts rest sd st2 anchor
      else if p.name == "$ref" || p.name == "$dynamicRef" then
        scanParts rest sd { st with refUris := (sd.name, sd.uri) :: st.refUris } dyn
      else scanParts rest sd st dyn

/-- Whether a parts list carries an $id part (the switch of resolveIDs
dispatches on the keyword name). -/
def hasIdPart (parts : List Part) : Bool :=
  parts.any (fun p => p.name == "$id")

/-- The sawDynamicAnchor scan of resolveIDs: whether the base already
carries a generated record part. -/
def hasRecordPart (parts : List Part) : Bool :=
  parts.any (fun p => p.generated && p.name == recordDynamicAnchorName)

/-- The wrap resolveIDs applies to a base owning a dynamic anchor: a
generated record part in front and a generated clear part at the end,
both carrying the anchor name and the anchored node. -/
def wrapParts (anchor : String) (target : List String) (parts : List Part) :
    List Part :=
  Part.mk recordDynamicAnchorName true (.dynAnchorVal anchor (.path target)) ::
    parts ++ [Part.mk clearDynamicAnchorName true (.dynAnchorVal anchor (.path target))]

/-- The first of two options, the combination of a wrap request found
earlier in the subtree walk with one found later. -/
def firstSome {α : Type} : Option α → Option α → Option α
  | some a, _ => some a
  | none, b => b

mutual

/-- Model of resolveIDs on one node.  Go wraps the current base schema
in place as soon as a dynamic anchor is found, guarded by a scan of the
base's parts for an existing record part; the embedding threads that
scan result as the boolean (the base-has-record flag) and passes a wrap
request (anchor name and anchored-node path) up to the owning base,
which applies it after its subtree is rebuilt — the same parts, since
nothing between the discovery and the wrap reads the base's parts other
than through the threaded flag.  The result is the rebuilt node, the
state, the updated flag, and the wrap request escaping to the enclosing
base (none when this node is itself a base). -/
def resolveIDs (fuel : ℕ) (isRoot : Bool) (n : Schema) (sd : SubInfo)
    (st : RState) (bhr : Bool) :
    Except String (Schema × RState × Bool × Option (String × List String)) :=
  match fuel with
  | 0 => .error "model: out of fuel"
  | fuel + 1 =>
      match scanParts n.parts sd st "" with
      | .error e => .error e
      | .ok (sd2, st2, dyn) =>
          if isRoot || hasIdPart n.parts then
            let myBhr0 := hasRecordPart n.parts
            let ownReq : Option (String × List String) :=
              if dyn == "" then none
              else if myBhr0 then none
              else some (dyn, sd.name)
            match resolveIDsParts fuel n.parts sd2.uri sd.name st2
                (myBhr0 || !(dyn == "")) with
            | .error e => .error e
            | .ok (parts2, st3, _, creq) =>
                let parts3 :=
                  match firstSome ownReq creq with
                  | some r => wrapParts r.1 r.2 parts2
                  | none => parts2
                .ok (Schema.mk parts3, st3, bhr, none)
          else
            let ownReq : Option (String × List String) :=
              if dyn == "" then none
              else if bhr then none
              else some (dyn, sd.name)
            match resolveIDsParts fuel n.parts sd2.uri sd.name st2
                (bhr || !(dyn == "")) with
            | .error e => .error e
            | .ok (parts2, st3, bhr2, creq) =>
                .ok (Schema.mk parts2, st3, bhr2, firstSome ownReq creq)

/-- The Children loop of resolveIDs: rebuild the parts with their
subschemas resolved, in the order Children yields them (map-valued
parts in sorted key order; Go maps are unordered, so the assoc-list
order of the rebuilt map is normalized to that same order). -/
def resolveIDsParts (fuel : ℕ) (parts : List Part) (uri : Option URL)
    (basePath : List String) (st : RState) (bhr : Bool) :
    Except String (List Part × RState × Bool × Option (String × List String)) :=
  match fuel with
  | 0 => .error "model: out of fuel"
  | fuel + 1 =>
      match parts with
      | [] => .ok ([], st, bhr, none)
      | p :: rest =>
          if p.generated then
            match resolveIDsParts fuel rest uri basePath st bhr with
            | .error e => .error e
            | .ok (rest2, st2, bhr2, req) => .ok (p :: rest2, st2, bhr2, req)
          else
            match p.val with
            | .schema s =>
                match resolveIDs fuel false s
                    { uri := uri, name := basePath ++ [p.name] } st bhr with
                | .error e => .error e
                | .ok (s2, st2, bhr2, req1) =>
                    match resolveIDsParts fuel rest uri basePath st2 bhr2 with
                    | .error e => .error e
                    | .ok (rest2, st3, bhr3, req2) =>
                        .ok (Part.mk p.name p.generated (.schema s2) :: rest2,
                             st3, bhr3, firstSome req1 req2)
            | .schemas ss =>
                match resolveIDsList fuel ss p.name 0 uri basePath st bhr with
                | .error e => .error e
                | .ok (ss2, st2, bhr2, req1) =>
                    match resolveIDsParts fuel rest uri basePath st2 bhr2 with
                    | .error e => .error e
                    | .ok (rest2, st3, bhr3, req2) =>
                        .ok (Part.mk p.name p.generated (.schemas ss2) :: rest2,
                             st3, bhr3, firstSome req1 req2)
            | .mapSchema m =>
                match resolveIDsMap fuel (sortByKey m) p.name uri basePath st bhr with
                | .error e => .error e
                | .ok (m2, st2, bhr2, req1) =>
                    match resolveIDsParts fuel rest uri basePath st2 bhr2 with
                    | .error e => .error e
                    | .ok (rest2, st3, bhr3, req2) =>
                        .ok (Part.mk p.name p.generated (.mapSchema m2) :: rest2,
                             st3, bhr3, firstSome req1 req2)
            | .schemaOrSchemas sOpt ss =>
                match sOpt with
                | some s =>
                    match resolveIDs fuel false s
                        { uri := uri, name := basePath ++ [p.name] } st bhr with
                    | .error e => .error e
                    | .ok (s2, st2, bhr2, req1) =>
                        match resolveIDsParts fuel rest uri basePath st2 bhr2 with
                        | .error e => .error e
                        | .ok (rest2, st3, bhr3, req2) =>
                            .ok (Part.mk p.name p.generated
                                   (.schemaOrSchemas (some s2) ss) :: rest2,
                                 st3, bhr3, firstSome req1 req2)
                | none =>
                    match resolveIDsList fuel ss p.name 0 uri basePath st bhr with
                    | .error e => .error e
                    | .ok (ss2, st2, bhr2, req1) =>
                        match resolveIDsParts fuel rest uri basePath st2 bhr2 with
                        | .error e => .error e
                        | .ok (rest2, st3, bhr3, req2) =>
                            .ok (Part.mk p.name p.generated
                                   (.schemaOrSchemas none ss2) :: rest2,
                                 st3, bhr3, firstSome req1 req2)
            | .mapArrayOrSchema m =>
                match resolveIDsAMap fuel (sortByKey m) p.name uri basePath st bhr with
                | .error e => .error e
                | .ok (m2, st2, bhr2, req1) =>
                    match resolveIDsParts fuel rest uri basePath st2 bhr2 with
                    | .error e => .error e
                    | .ok (rest2, st3, bhr3, req2) =>
                        .ok (Part.mk p.name p.generated (.mapArrayOrSchema m2) :: rest2,
                             st3, bhr3, firstSome req1 req2)
            | _ =>
                match resolveIDsParts fuel rest uri basePath st bhr with
                | .error e => .error e
                | .ok (rest2, st2, bhr2, req) => .ok (p :: rest2, st2, bhr2, req)

/-- resolveIDs over a list-valued part, with indexed Children names. -/
def resolveIDsList (fuel : ℕ) (ss : List Schema) (kwName : String) (i : ℕ)
    (uri : Option URL) (basePath : List String) (st : RState) (bhr : Bool) :
    Except String (List Schema × RState × Bool × Option (String × List String)) :=
  match fuel with
  | 0 => .error "model: out of fuel"
  | fuel + 1 =>
      match ss with
      | [] => .ok ([], st, bhr, none)
      | s :: rest =>
          match resolveIDs fuel false s
              { uri := uri, name := basePath ++ [kwName ++ "/" ++ toString i] } st bhr with
          | .error e => .error e
          | .ok (s2, st2, bhr2, req1) =>
              match resolveIDsList fuel rest kwName (i + 1) uri basePath st2 bhr2 with
              | .error e => .error e
              | .ok (rest2, st3, bhr3, req2) =>
                  .ok (s2 :: rest2, st3, bhr3, firstSome req1 req2)

/-- resolveIDs over a map-valued part, with key Children names; the
entries arrive in sorted key order. -/
def resolveIDsMap (fuel : ℕ) (m : List (String × Schema)) (kwName : String)
    (uri : Option URL) (basePath : List String) (st : RState) (bhr : Bool) :
    Except String
      (List (String × Schema) × RState × Bool × Option (String × List String)) :=
  match fuel with
  | 0 => .error "model: out of fuel"
  | fuel + 1 =>
      match m with
      | [] => .ok ([], st, bhr, none)
      | (k, s) :: rest =>
          match resolveIDs fuel false s
              { uri := uri, name := basePath ++ [kwName ++ "/" ++ k] } st bhr with
          | .error e => .error e
          | .ok (s2, st2, bhr2, req1) =>
              match resolveIDsMap fuel rest kwName uri basePath st2 bhr2 with
              | .error e => .error e
              | .ok (rest2, st3, bhr3, req2) =>
                  .ok ((k, s2) :: rest2, st3, bhr3, firstSome req1 req2)

/-- resolveIDs over an array-or-schema map part: only schema entries are
children, array entries are kept as they are. -/
def resolveIDsAMap (fuel : ℕ) (m : List (String × ArrayOrSchema)) (kwName : String)
    (uri : Option URL) (basePath : List String) (st : RState) (bhr : Bool) :
    Except String
      (List (String × ArrayOrSchema) × RState × Bool ×
        Option (String × List String)) :=
  match fuel with
  | 0 => .error "model: out of fuel"
  | fuel + 1 =>
      match m with
      | [] => .ok ([], st, bhr, none)
      | (k, .arr a) :: rest =>
          match resolveIDsAMap fuel rest kwName uri basePath st bhr with
          | .error e => .error e
          | .ok (rest2, st2, bhr2, req) => .ok ((k, .arr a) :: rest2, st2, bhr2, req)
      | (k, .schema s) :: rest =>
          match resolveIDs fuel false s
              { uri := uri, name := basePath ++ [kwName ++ "/" ++ k] } st bhr with
          | .error e => .error e
          | .ok (s2, st2, bhr2, req1) =>
              match resolveIDsAMap fuel rest kwName uri basePath st2 bhr2 with
              | .error e => .error e
              | .ok (rest2, st3, bhr3, req2) =>
                  .ok ((k, .schema s2) :: rest2, st3, bhr3, firstSome req1 req2)

end

/-- Consecutive index names for list-valued children. -/
def indexedNames (name : String) (i : ℕ) : List Schema → List (String × Schema)
  | [] => []
  | s :: rest => (name ++ "/" ++ toString i, s) :: indexedNames name (i + 1) rest

/-- Model of Schema.Children applied to a parts list: the named
immediate subschemas, skipping generated parts, with map-valued parts
in sorted key order. -/
def childEntries : List Part → List (String × Schema)
  | [] => []
  | p :: rest =>
      (if p.generated then []
       else
         match p.val with
         | .schema s => [(p.name, s)]
         | .schemas ss => indexedNames p.name 0 ss
         | .mapSchema m =>
             (sortByKey m).map (fun kv => (p.name ++ "/" ++ kv.1, kv.2))
         | .schemaOrSchemas (some s) _ => [(p.name, s)]
         | .schemaOrSchemas none ss => indexedNames p.name 0 ss
         | .mapArrayOrSchema m =>
             (sortByKey m).filterMap (fun kv =>
               match kv.2 with
               | .schema s => some (p.name ++ "/" ++ kv.1, s)
               | .arr _ => none)
         | _ => []) ++ childEntries rest

/-- Navigate a Children-name path from a node (the model of following a
stored *Schema pointer). -/
def getAtPath (fuel : ℕ) (s : Schema) : List String → Option Schema
  | [] => some s
  | seg :: rest =>
      match fuel with
      | 0 => none
      | fuel + 1 =>
          match assocFind (childEntries s.parts) seg with
          | none => none
          | some sub => getAtPath fuel sub rest

/-- The addRef closure of resolveRef: the generated part recording a
resolved reference, under the keyword picked by the dynamic and
detached flags. -/
def addRefPart (dynamic detached : Bool) (t : RefTarget) : Part :=
  Part.mk
    (if detached then detachedDynamicRefName
     else if dynamic then resolvedDynamicRefName
     else resolvedRefName)
    true (.refTarget t)

/-- Model of resolveURI with the default ResolveOpts: an empty URI is
the root, a registered $id URI is looked up in the state, a relative
URI fails, and an absolute URI fails because the metaschema table is
modelled as absent and there is no Loader. -/
def resolveURI (fuel : ℕ) (root : Schema) (st : RState) (refURI : URL) :
    Except String (Schema × List String) :=
  let noFragStr := refURI.base
  if noFragStr == "" then .ok (root, [])
  else
    match assocFind st.uris noFragStr with
    | some path =>
        match getAtPath fuel root path with
        | some s => .ok (s, path)
        | none => .error "model: registered URI path not in tree"
    | none =>
        if !(URL.isAbs { base := noFragStr, frag := "" }) then
          .error "could not resolve ref"
        else .error "remote loading of URI not permitted"

/-- Model of resolveRef: resolve the reference URI against the URI
recorded for the node in resolveIDs, look the result up among the
anchors and $id URIs, navigate a JSON-pointer fragment with DerefSchema,
and return the generated part to append.  A $dynamicRef that resolves to
a dynamic anchor other than by JSON pointer yields the detached-backstop
keyword. -/
def resolveRefPart (fuel : ℕ) (conv : J → Except String Schema) (root : Schema)
    (st : RState) (dynamic : Bool) (value : PartValue) (nodePath : List String) :
    Except String Part :=
  match value with
  | .str ref =>
      match pathFind st.refUris nodePath with
      | none => .error "resolveIDs did not resolve schema URI"
      | some sdUri =>
          let refURI : URL :=
            match sdUri with
            | some u => resolveReference u (parseURL ref)
            | none => parseURL ref
          let frag := refURI.frag
          let dynamicFrag := dynamic && !(frag == "" || strHasPrefix frag "/")
          match assocFind st.anchors (uriToString refURI) with
          | some ad => .ok (addRefPart dynamic (dynamicFrag && ad.dynamic) (.path ad.path))
          | none =>
              match resolveURI fuel root st refURI with
              | .error e => .error e
              | .ok (target, targetPath) =>
                  match assocFind st.anchors (uriToString refURI) with
                  | some ad =>
                      .ok (addRefPart dynamic (dynamicFrag && ad.dynamic) (.path ad.path))
                  | none =>
                      if frag == "" then .ok (addRefPart dynamic false (.path targetPath))
                      else if !(strHasPrefix frag "/") then
                        .error "could not find fragment"
                      else
                        match derefToks fuel conv target (some targetPath)
                            (pointerToks frag) with
                        | .error _ => .error "could not resolve JSON pointer"
                        | .ok (sub, pOpt) =>
                            .ok (addRefPart dynamic false
                              (match pOpt with
                               | some pp => .path pp
                               | none => .boxed sub))
  | _ => .error "model: non-string ref value"

/-- The parts loop of resolveRefs: at most one $ref and one $dynamicRef
per node, each replaced by a generated part collected in scan order (Go
appends them to the node's parts during the loop, past the range the
loop covers). -/
def scanRefs (fuel : ℕ) (conv : J → Except String Schema) (root : Schema)
    (st : RState) (nodePath : List String) :
    List Part → Bool → Bool → Except String (List Part)
  | [], _, _ => .ok []
  | p :: rest, sawRef, sawDyn =>
      if p.name == "$ref" then
        if sawRef then .error "more than one $ref"
        else
          match resolveRefPart fuel conv root st false p.val nodePath with
          | .error e => .error e
          | .ok newPart =>
              match scanRefs fuel conv root st nodePath rest true sawDyn with
              | .error e => .error e
              | .ok ps => .ok (newPart :: ps)
      else if p.name == "$dynamicRef" then
        if sawDyn then .error "more than one $dynamicRef"
        else
          match resolveRefPart fuel conv root st true p.val nodePath with
          | .error e => .error e
          | .ok newPart =>
              match scanRefs fuel conv root st nodePath rest sawRef true with
              | .error e => .error e
              | .ok ps => .ok (newPart :: ps)
      else scanRefs fuel conv root st nodePath rest sawRef sawDyn

mutual

/-- Model of resolveRefs on one node: resolve the references of the
node's parts, recurse into the children (the appended parts are
generated, so Children skips them), and append the generated reference
parts.  The state is read-only here because nothing is loaded
remotely. -/
def resolveRefs (fuel : ℕ) (conv : J → Except String Schema) (root : Schema)
    (n : Schema) (nodePath : List String) (st : RState) : Except String Schema :=
  match fuel with
  | 0 => .error "model: out of fuel"
  | fuel + 1 =>
      match scanRefs fuel conv root st nodePath n.parts false false with
      | .error e => .error e
      | .ok appended =>
          match resolveRefsParts fuel conv root n.parts nodePath st with
          | .error e => .error e
          | .ok parts2 => .ok (Schema.mk (parts2 ++ appended))

/-- The Children loop of resolveRefs, rebuilding the parts. -/
def resolveRefsParts (fuel : ℕ) (conv : J → Except String Schema) (root : Schema)
    (parts : List Part) (basePath : List String) (st : RState) :
    Except String (List Part) :=
  match fuel with
  | 0 => .error "model: out of fuel"
  | fuel + 1 =>
      match parts with
      | [] => .ok []
      | p :: rest =>
          if p.generated then
            match resolveRefsParts fuel conv root rest basePath st with
            | .error e => .error e
            | .ok rest2 => .ok (p :: rest2)
          else
            match p.val with
            | .schema s =>
                match resolveRefs fuel conv root s (basePath ++ [p.name]) st with
                | .error e => .error e
                | .ok s2 =>
                    match resolveRefsParts fuel conv root rest basePath st with
                    | .error e => .error e
                    | .ok rest2 =>
                        .ok (Part.mk p.name p.generated (.schema s2) :: rest2)
            | .schemas ss =>
                match resolveRefsList fuel conv root ss p.name 0 basePath st with
                | .error e => .error e
                | .ok ss2 =>
                    match resolveRefsParts fuel conv root rest basePath st with
                    | .error e => .error e
                    | .ok rest2 =>
                        .ok (Part.mk p.name p.generated (.schemas ss2) :: rest2)
            | .mapSchema m =>
                match resolveRefsMap fuel conv root (sortByKey m) p.name basePath st with
                | .error e => .error e
                | .ok m2 =>
                    match resolveRefsParts fuel conv root rest basePath st with
                    | .error e => .error e
                    | .ok rest2 =>
                        .ok (Part.mk p.name p.generated (.mapSchema m2) :: rest2)
            | .schemaOrSchemas sOpt ss =>
                match sOpt with
                | some s =>
                    match resolveRefs fuel conv root s (basePath ++ [p.name]) st with
                    | .error e => .error e
                    | .ok s2 =>
                        match resolveRefsParts fuel conv root rest basePath st with
                        | .error e => .error e
                        | .ok rest2 =>
                            .ok (Part.mk p.name p.generated
                                   (.schemaOrSchemas (some s2) ss) :: rest2)
                | none =>
                    match resolveRefsList fuel conv root ss p.name 0 basePath st with
                    | .error e => .error e
                    | .ok ss2 =>
                        match resolveRefsParts fuel conv root rest basePath st with
                        | .error e => .error e
                        | .ok rest2 =>
                            .ok (Part.mk p.name p.generated
                                   (.schemaOrSchemas none ss2) :: rest2)
            | .mapArrayOrSchema m =>
                match resolveRefsAMap fuel conv root (sortByKey m) p.name basePath st with
                | .error e => .error e
                | .ok m2 =>
                    match resolveRefsParts fuel conv root rest basePath st with
                    | .error e => .error e
                    | .ok rest2 =>
                        .ok (Part.mk p.name p.generated (.mapArrayOrSchema m2) :: rest2)
            | _ =>
                match resolveRefsParts fuel conv root rest basePath st with
                | .error e => .error e
                | .ok rest2 => .ok (p :: rest2)

/-- resolveRefs over a list-valued part. -/
def resolveRefsList (fuel : ℕ) (conv : J → Except String Schema) (root : Schema)
    (ss : List Schema) (kwName : String) (i : ℕ) (basePath : List String)
    (st : RState) : Except String (List Schema) :=
  match fuel with
  | 0 => .error "model: out of fuel"
  | fuel + 1 =>
      match ss with
      | [] => .ok []
      | s :: rest =>
          match resolveRefs fuel conv root s
              (basePath ++ [kwName ++ "/" ++ toString i]) st with
          | .error e => .error e
          | .ok s2 =>
              match resolveRefsList fuel conv root rest kwName (i + 1) basePath st with
              | .error e => .error e
              | .ok rest2 => .ok (s2 :: rest2)

/-- resolveRefs over a map-valued part, entries in sorted key order. -/
def resolveRefsMap (fuel : ℕ) (conv : J → Except String Schema) (root : Schema)
    (m : List (String × Schema)) (kwName : String) (basePath : List String)
    (st : RState) : Except String (List (String × Schema)) :=
  match fuel with
  | 0 => .error "model: out of fuel"
  | fuel + 1 =>
      match m with
      | [] => .ok []
      | (k, s) :: rest =>
          match resolveRefs fuel conv root s (basePath ++ [kwName ++ "/" ++ k]) st with
          | .error e => .error e
          | .ok s2 =>
              match resolveRefsMap fuel conv root rest kwName basePath st with
              | .error e => .error e
              | .ok rest2 => .ok ((k, s2) :: rest2)

/-- resolveRefs over an array-or-schema map part. -/
def resolveRefsAMap (fuel : ℕ) (conv : J → Except String Schema) (root : Schema)
    (m : List (String × ArrayOrSchema)) (kwName : String)
    (basePath : List String) (st : RState) :
    Except String (List (String × ArrayOrSchema)) :=
  match fuel with
  | 0 => .error "model: out of fuel"
  | fuel + 1 =>
      match m with
      | [] => .ok []
      | (k, .arr a) :: rest =>
          match resolveRefsAMap fuel conv root rest kwName basePath st with
          | .error e => .error e
          | .ok rest2 => .ok ((k, .arr a) :: rest2)
      | (k, .schema s) :: rest =>
          match resolveRefs fuel conv root s (basePath ++ [kwName ++ "/" ++ k]) st with
          | .error e => .error e
          | .ok s2 =>
              match resolveRefsAMap fuel conv root rest kwName basePath st with
              | .error e => .error e
              | .ok rest2 => .ok ((k, .schema s2) :: rest2)

end

/-- Model of resolveRefSchema: the ID pass followed by the reference
pass, the root of the second pass being the output of the first. -/
def resolveRefSchema (fuel : ℕ) (conv : J → Except String Schema)
    (uri : Option URL) (schema : Schema) (st : RState) :
    Except String (Schema × RState) :=
  match resolveIDs fuel true schema { uri := uri, name := [] } st false with
  | .error e => .error e
  | .ok (s2, st2, _, _) =>
      match resolveRefs fuel conv s2 s2 [] st2 with
      | .error e => .error e
      | .ok s3 => .ok (s3, st2)

/-- Model of resolveSchema with the default ResolveOpts: no URI, empty
state. -/
def resolveSchema (fuel : ℕ) (conv : J → Except String Schema) (schema : Schema) :
    Except String (Schema × RState) :=
  resolveRefSchema fuel conv none schema emptyRState

/-! ## Predicates for the resolver invariant -/

mutual

/-- No generated part anywhere in a schema tree — true of every schema
built from JSON, which is what resolveSchema receives. -/
def schemaClean : Schema → Bool
  | .mk ps => partsClean ps

/-- schemaClean over a parts list. -/
def partsClean : List Part → Bool
  | [] => true
  | p :: rest => partClean p && partsClean rest

/-- schemaClean of one part: not generated, nested schemas clean. -/
def partClean : Part → Bool
  | .mk _ g v => !g && valClean v

/-- schemaClean under a part value. -/
def valClean : PartValue → Bool
  | .schema s => schemaClean s
  | .schemas ss => schemasClean ss
  | .mapSchema m => mapClean m
  | .schemaOrSchemas sOpt ss =>
      (match sOpt with
       | some s => schemaClean s
       | none => true) && schemasClean ss
  | .mapArrayOrSchema m => amapClean m
  | _ => true

/-- schemaClean over a schema list. -/
def schemasClean : List Schema → Bool
  | [] => true
  | s :: rest => schemaClean s && schemasClean rest

/-- schemaClean over a schema map. -/
def mapClean : List (String × Schema) → Bool
  | [] => true
  | (_, s) :: rest => schemaClean s && mapClean rest

/-- schemaClean over an array-or-schema map. -/
def amapClean : List (String × ArrayOrSchema) → Bool
  | [] => true
  | (_, .arr _) :: rest => amapClean rest
  | (_, .schema s) :: rest => schemaClean s && amapClean rest

end

/-- Whether a parts list carries a $dynamicAnchor part with a non-empty
string value (an empty anchor name registers nothing, so it triggers no
wrap). -/
def hasDynAnchorPart (parts : List Part) : Bool :=
  parts.any (fun p => p.name == "$dynamicAnchor" &&
    (match p.val with
     | .str a => !(a == "")
     | _ => false))

mutual

/-- Whether the $id-scope of a node — the node and its descendants
reachable through Children without crossing another $id — contains a
non-empty $dynamicAnchor.  This is exactly the condition under which the
resolveIDs walk sends a wrap request to the base owning that scope. -/
def scopeHasDyn : Schema → Bool
  | .mk ps => hasDynAnchorPart ps || scopeParts ps

/-- scopeHasDyn over the parts of a node. -/
def scopeParts : List Part → Bool
  | [] => false
  | .mk _ g v :: rest =>
      (if g then false else scopeVal v) || scopeParts rest

/-- scopeHasDyn under a part value, cutting at children with $id. -/
def scopeVal : PartValue → Bool
  | .schema s => if hasIdPart s.parts then false else scopeHasDyn s
  | .schemas ss => scopeList ss
  | .mapSchema m => scopeMap m
  | .schemaOrSchemas (some s) _ => if hasIdPart s.parts then false else scopeHasDyn s
  | .schemaOrSchemas none ss => scopeList ss
  | .mapArrayOrSchema m => scopeAMap m
  | _ => false

/-- scopeHasDyn over a schema list. -/
def scopeList : List Schema → Bool
  | [] => false
  | s :: rest => (if hasIdPart s.parts then false else scopeHasDyn s) || scopeList rest

/-- scopeHasDyn over a schema map. -/
def scopeMap : List (String × Schema) → Bool
  | [] => false
  | (_, s) :: rest =>
      (if hasIdPart s.parts then false else scopeHasDyn s) || scopeMap rest

/-- scopeHasDyn over an array-or-schema map. -/
def scopeAMap : List (String × ArrayOrSchema) → Bool
  | [] => false
  | (_, .arr _) :: rest => scopeAMap rest
  | (_, .schema s) :: rest =>
      (if hasIdPart s.parts then false else scopeHasDyn s) || scopeAMap rest

end

/-- Whether a node's first part is a generated record part. -/
def beginsWithRecord (s : Schema) : Bool :=
  match s.parts with
  | p :: _ => p.generated && p.name == recordDynamicAnchorName
  | [] => false

/-- Whether a node's last part is a generated clear part. -/
def endsWithClear (s : Schema) : Bool :=
  match s.parts.getLast? with
  | some p => p.generated && p.name == clearDynamicAnchorName
  | none => false

mutual

/-- The wrap invariant after the ID pass: every base node (the root, or
a node carrying $id) whose $id-scope contains a non-empty $dynamicAnchor
begins with a generated record part and ends with a generated clear
part, recursively through the whole tree. -/
def wellWrapped : Bool → Schema → Bool
  | isBase, .mk ps =>
      (!(isBase && scopeHasDyn (.mk ps)) ||
        (beginsWithRecord (.mk ps) && endsWithClear (.mk ps))) &&
      wellWrappedParts ps

/-- wellWrapped over a parts list (generated parts carry no schemas the
walk visits). -/
def wellWrappedParts : List Part → Bool
  | [] => true
  | .mk _ g v :: rest => (g || wellWrappedVal v) && wellWrappedParts rest

/-- wellWrapped under a part value; a child is a base iff it carries
$id. -/
def wellWrappedVal : PartValue → Bool
  | .schema s => wellWrapped (hasIdPart s.parts) s
  | .schemas ss => wellWrappedList ss
  | .mapSchema m => wellWrappedMap m
  | .schemaOrSchemas (some s) _ => wellWrapped (hasIdPart s.parts) s
  | .schemaOrSchemas none ss => wellWrappedList ss
  | .mapArrayOrSchema m => wellWrappedAMap m
  | _ => true

/-- wellWrapped over a schema list. -/
def wellWrappedList : List Schema → Bool
  | [] => true
  | s :: rest => wellWrapped (hasIdPart s.parts) s && wellWrappedList rest

/-- wellWrapped over a schema map. -/
def wellWrappedMap : List (String × Schema) → Bool
  | [] => true
  | (_, s) :: rest => wellWrapped (hasIdPart s.parts) s && wellWrappedMap rest

/-- wellWrapped over an array-or-schema map. -/
def wellWrappedAMap : List (String × ArrayOrSchema) → Bool
  | [] => true
  | (_, .arr _) :: rest => wellWrappedAMap rest
  | (_, .schema s) :: rest =>
      wellWrapped (hasIdPart s.parts) s && wellWrappedAMap rest

end

/-- The induction invariant of the ID pass at one node: a base comes out
well wrapped with the outer flag and request untouched; a non-base
node's children come out well wrapped, its scope condition is preserved,
a wrap request escapes exactly when the scope has a dynamic anchor and
the base does not yet have a record part, and the flag absorbs the scope
condition. -/
def IDNodeInv (fuel : ℕ) : Prop :=
  ∀ isRoot n sd st bhr n2 st2 bhr2 req,
    schemaClean n = true →
    resolveIDs fuel isRoot n sd st bhr = Except.ok (n2, st2, bhr2, req) →
    (((isRoot || hasIdPart n.parts) = true →
        wellWrapped true n2 = true ∧ hasIdPart n2.parts = hasIdPart n.parts ∧
        bhr2 = bhr ∧ req = none) ∧
     ((isRoot || hasIdPart n.parts) = false →
        wellWrappedParts n2.parts = true ∧ hasIdPart n2.parts = false ∧
        scopeHasDyn n2 = scopeHasDyn n ∧
        req.isSome = (!bhr && scopeHasDyn n) ∧
        bhr2 = (bhr || scopeHasDyn n)))

/-- The induction invariant of the ID pass over a parts list. -/
def IDPartsInv (fuel : ℕ) : Prop :=
  ∀ parts uri basePath st bhr parts2 st2 bhr2 req,
    partsClean parts = true →
    resolveIDsParts fuel parts uri basePath st bhr
      = Except.ok (parts2, st2, bhr2, req) →
    wellWrappedParts parts2 = true ∧
    hasIdPart parts2 = hasIdPart parts ∧
    hasDynAnchorPart parts2 = hasDynAnchorPart parts ∧
    scopeParts parts2 = scopeParts parts ∧
    req.isSome = (!bhr && scopeParts parts) ∧
    bhr2 = (bhr || scopeParts parts)

/-- The induction invariant of the ID pass over a schema list. -/
def IDListInv (fuel : ℕ) : Prop :=
  ∀ ss kw i uri basePath st bhr ss2 st2 bhr2 req,
    schemasClean ss = true →
    resolveIDsList fuel ss kw i uri basePath st bhr
      = Except.ok (ss2, st2, bhr2, req) →
    wellWrappedList ss2 = true ∧
    scopeList ss2 = scopeList ss ∧
    req.isSome = (!bhr && scopeList ss) ∧
    bhr2 = (bhr || scopeList ss)

/-- The induction invariant of the ID pass over a schema map. -/
def IDMapInv (fuel : ℕ) : Prop :=
  ∀ m kw uri basePath st bhr m2 st2 bhr2 req,
    mapClean m = true →
    resolveIDsMap fuel m kw uri basePath st bhr
      = Except.ok (m2, st2, bhr2, req) →
    wellWrappedMap m2 = true ∧
    scopeMap m2 = scopeMap m ∧
    req.isSome = (!bhr && scopeMap m) ∧
    bhr2 = (bhr || scopeMap m)

/-- The induction invariant of the ID pass over an array-or-schema
map. -/
def IDAMapInv (fuel : ℕ) : Prop :=
  ∀ m kw uri basePath st bhr m2 st2 bhr2 req,
    amapClean m = true →
    resolveIDsAMap fuel m kw uri basePath st bhr
      = Except.ok (m2, st2, bhr2, req) →
    wellWrappedAMap m2 = true ∧
    scopeAMap m2 = scopeAMap m ∧
    req.isSome = (!bhr && scopeAMap m) ∧
    bhr2 = (bhr || scopeAMap m)

/-! ## Concrete inputs for the marshalling and navigation claims -/

/-- Modelled from the spec: the pre-2020 keyword table is generated code
absent from the sources at hand.  The specification lists the earlier
drafts items keyword with the schema-or-list-of-schemas argument form
(ValidatePre2020Items in internal/validator consumes exactly that form),
and prescribes the lexicographic comparator when no ordering constraint
applies.  Only the entry the failing input needs is included. -/
def pre2020Vocab : Vocab :=
  { vocName := "draft7"
    schemaUri := "http://json-schema.org/draft-07/schema"
    keywords := [("items", { name := "items", argType := .schemaOrSchemas, generated := false })]
    cmp := fun a b => compare a b }

/-- The registry holding the modelled pre-2020 vocabulary. -/
def pre2020Reg : List (String × Vocab) :=
  [(pre2020Vocab.schemaUri, pre2020Vocab)]

/-- The failing document for the marshalling round-trip: an items
keyword with a list of two boolean schemas. -/
def c6Input : J :=
  .obj [("items", .arr [.bool true, .bool false])]

/-- Parse the failing document (under the modelled pre-2020 vocabulary
as default) and marshal the result, the first two steps of the
round-trip. -/
def c6Marshalled : Except String String :=
  match buildTopFromJSON 20 pre2020Reg (some pre2020Vocab) "" c6Input with
  | .error e => .error e
  | .ok (s, _) => marshalSchemaF 20 s

/-- A schema with no keyword named nosuch, for the pointer-navigation
claim: the node of a type keyword. -/
def c4Root : Schema :=
  .mk [.mk "type" false (.strOrStrs ⟨"string", none⟩)]

/-- A schema carrying a two-element prefixItems list and a one-entry
$defs map, for the distinct navigation errors. -/
def c4Root2 : Schema :=
  .mk [.mk "prefixItems" false (.schemas [.mk [.mk "$bool" false (.bool true)]]),
       .mk "$defs" false (.mapSchema [("a", .mk [.mk "$bool" false (.bool true)])])]

/-- A conversion stub for the unknown-keyword branch of DerefSchema; the
navigations of the claims never reach that branch. -/
def convStub : J → Except String Schema :=
  fun _ => .error "unused"

/-- The counterexample schema for the resolver claim: the root holds a
$ref to a $defs entry that carries a $dynamicAnchor, so the root is the
owning base of that anchor and also receives a resolved-reference
part. -/
def c5Root : Schema :=
  .mk [ .mk "$ref" false (.str "#/$defs/x"),
        .mk "$defs" false
          (.mapSchema [("x", .mk [ .mk "$dynamicAnchor" false (.str "T") ])]) ]

/-- The checks of the resolver counterexample on the fully resolved
root: it begins with the record part, it does not end with the clear
part (its last part is the resolved-$ref part appended afterwards), it
has no $id, and the node at $defs/x still carries the dynamic anchor,
so the root is its owning base. -/
def c5CounterCheck : Bool :=
  match resolveSchema 30 convStub c5Root with
  | .ok (s, _) =>
      beginsWithRecord s && !(endsWithClear s) && !(hasIdPart s.parts) &&
      ((s.parts.getLast?).map Part.name == some resolvedRefName) &&
      (match getAtPath 10 s ["$defs/x"] with
       | some x => hasDynAnchorPart x.parts && !(hasIdPart x.parts)
       | none => false)
  | .error _ => false

/-- The result of the ID pass on the counterexample schema, for the
witness of the amended invariant. -/
def c5Pass1Res : Schema × RState × Bool × Option (String × List String) :=
  match resolveIDs 30 true c5Root { uri := none, name := [] } emptyRState false with
  | .ok o => o
  | .error _ => (Schema.mk [], emptyRState, false, none)

/-! # Theorems -/

/-- The overflow bound is 2 to the power 1024. -/
theorem float64OverflowBound_eq : float64OverflowBound = ((2 ^ 1024 : ℕ) : ℚ) := by
  rw [float64OverflowBound]
  norm_num

/-! ## C1: the recursion depth guard -/

/-- Closed form of the Child chain: the n-th descendant exists exactly
for n up to 1001, at depth n. -/
theorem childChain_closed (n : ℕ) :
    childChain n = if n ≤ 1001 then some { depth := n, instancePath := [] } else none := by
  induction n with
  | zero => simp [childChain]
  | succ n ih =>
      rw [childChain, ih]
      by_cases h1 : n ≤ 1001
      · by_cases h2 : n ≤ 1000
        · simp only [h1, if_true]
          have hng : ¬ (1000 < n) := by omega
          have hs : n + 1 ≤ 1001 := by omega
          simp [Child, hng, hs]
        · have hn : n = 1001 := by omega
          subst hn
          norm_num [Child]
      · have hs : ¬ (n + 1 ≤ 1001) := by omega
        simp [h1, hs]

/-- C1 counterexample: the claimed bound Depth ≤ 1000 fails on the code:
starting from the depth-0 state of a validation call, 1001 successive
Child calls all succeed and the last created state has Depth 1001. -/
theorem c1_counterexample_depth1001 :
    childChain 1001 = some { depth := 1001, instancePath := [] } ∧ 1001 > 1000 := by
  refine ⟨?_, by norm_num⟩
  rw [childChain_closed]
  norm_num

/-- C1 (amended): for every validation call, the Depth of every
ValidationState created during the call is at most 1001; Child returns
an error exactly when the depth of the state it is called on exceeds
1000, and that error is a single non-validation (fatal) error, so
evaluation cannot loop forever. -/
theorem c1_depth_bound_amended :
    (∀ n vs, childChain n = some vs → vs.depth ≤ 1001) ∧
    (∀ vs : ValidationState, (∃ vs2, Child vs = .ok vs2) ↔ vs.depth ≤ 1000) ∧
    (∀ vs e, Child vs = .error e → IsValidationError e = false) := by
  refine ⟨?_, ?_, ?_⟩
  · intro n vs h
    rw [childChain_closed] at h
    by_cases h1 : n ≤ 1001
    · simp only [h1, if_true, Option.some.injEq] at h
      rw [← h]
      exact h1
    · simp [h1] at h
  · intro vs
    constructor
    · rintro ⟨vs2, h⟩
      by_contra hgt
      simp only [Child, if_pos (by omega : vs.depth > 1000)] at h
      cases h
    · intro hle
      refine ⟨{ depth := vs.depth + 1, instancePath := vs.instancePath }, ?_⟩
      simp [Child, Nat.not_lt.mpr hle]
  · intro vs e h
    simp only [Child] at h
    split at h
    · cases h
      rfl
    · cases h

/-- Witness for the amended C1 theorem at depth 3. -/
theorem c1_depth_bound_amended_witness :
    ({ depth := 3, instancePath := [] } : ValidationState).depth ≤ 1001 ∧
    (∃ vs2, Child { depth := 3, instancePath := [] } = .ok vs2) :=
  ⟨c1_depth_bound_amended.1 3 { depth := 3, instancePath := [] }
      (by rw [childChain_closed]; norm_num),
   (c1_depth_bound_amended.2.1 { depth := 3, instancePath := [] }).mpr (by norm_num)⟩

/-! ## C2: numeric keywords on non-numeric instances -/

/-- C2 counterexample: the string instance "3" is not numeric, yet
multipleOf 2 rejects it, because instanceFloat parses numeric strings
with strconv.ParseFloat.  So the claim that every non-numeric instance
validates as true under the numeric keywords fails on the code. -/
theorem c2_counterexample_numeric_string :
    isNumericInstance (.str "3") = false ∧
    (ValidateMultipleOf (.finite 2) (.str "3")).isSome = true := by
  exact ⟨rfl, by decide⟩

/-- C2 (amended): for the five numeric keywords, every instance on which
the instanceFloat conversion fails (every non-numeric instance except
strings that parse as floating-point numbers, which are treated as their
numeric value) validates as true; and multipleOf rejects an instance
converting to the numeric value f exactly when the quotient f/arg is
non-integer or infinite. -/
theorem c2_numeric_keywords_amended :
    (∀ (arg : GoFloat) (inst : Instance), instanceFloat inst = none →
        ValidateMultipleOf arg inst = none ∧ ValidateMaximum arg inst = none ∧
        ValidateExclusiveMaximum arg inst = none ∧ ValidateMinimum arg inst = none ∧
        ValidateExclusiveMinimum arg inst = none) ∧
    (∀ (arg : GoFloat) (inst : Instance) (f : GoFloat), instanceFloat inst = some f →
        (ValidateMultipleOf arg inst = none ↔
          (GoFloat.goEq (f.div arg) (f.div arg).trunc = true ∧ (f.div arg).isInf = false))) := by
  constructor
  · intro arg inst h
    refine ⟨?_, ?_, ?_, ?_, ?_⟩ <;>
      simp only [ValidateMultipleOf, ValidateMaximum, ValidateExclusiveMaximum,
        ValidateMinimum, ValidateExclusiveMinimum, h]
  · intro arg inst f h
    simp only [ValidateMultipleOf, h]
    by_cases hcond : ¬ GoFloat.goEq (f.div arg) (f.div arg).trunc ∨ (f.div arg).isInf
    · rw [if_pos hcond]
      constructor
      · intro hc
        cases hc
      · intro ⟨h1, h2⟩
        rcases hcond with hc | hc
        · exact absurd h1 hc
        · rw [h2] at hc
          cases hc
    · rw [if_neg hcond]
      simp only [not_or, not_not, Bool.not_eq_true, Bool.not_eq_false] at hcond
      constructor
      · intro _
        exact ⟨hcond.1, hcond.2⟩
      · intro _
        rfl

/-- Witness for the amended C2 theorem: a bool instance is skipped by
multipleOf, and 3 is not a multiple of 2. -/
theorem c2_numeric_keywords_amended_witness :
    ValidateMultipleOf (.finite 2) (.bool true) = none ∧
    (ValidateMultipleOf (.finite 2) (.float (.finite 3)) = none ↔
      (GoFloat.goEq ((GoFloat.finite 3).div (.finite 2))
          ((GoFloat.finite 3).div (.finite 2)).trunc = true ∧
        ((GoFloat.finite 3).div (.finite 2)).isInf = false)) :=
  ⟨(c2_numeric_keywords_amended.1 (.finite 2) (.bool true) rfl).1,
   c2_numeric_keywords_amended.2 (.finite 2) (.float (.finite 3)) (.finite 3) rfl⟩

/-! ## C3: minContains 0 makes contains vacuous -/

/-- The success flag computed by the contains element loop: the initial
flag, or some element validating against the contains subschema. -/
theorem containsLoop_fst (sub : Instance → Option GoErr) (xs : List Instance) :
    ∀ (i : ℕ) (topOK : Bool) (matched : List ℕ),
      (containsLoop sub xs i topOK matched).1
        = (topOK || xs.any (fun x => (sub x).isNone)) := by
  induction xs with
  | nil => intro i topOK matched; simp [containsLoop]
  | cons x rest ih =>
      intro i topOK matched
      simp only [containsLoop, List.any_cons]
      cases hx : sub x with
      | none => simp [ih, hx]
      | some e => simp [ih, hx, Option.isNone]

/-- C3: on the parts of a finalized schema node every minContains part
follows the contains part (the vocabulary comparator orders minContains
after contains, as minContains consumes the note contains records), and
the contains keyword scans the parts after its own index for a
minContains with value 0.  On an array instance, contains succeeds
exactly when that scan finds minContains 0 or some array element
validates against the contains subschema; in particular a minContains 0
part makes contains succeed even with zero matching elements, and
without one contains fails exactly when no element matches.  (Non-array
instances return success before the check, as the keyword ignores them.) -/
theorem contains_minContainsZero_vacuous (sub : Instance → Option GoErr)
    (parts : List Part) (index : ℕ) (xs : List Instance) :
    (ValidateContains sub parts index (.arr xs)).1 = none ↔
      (hasMinContainsZeroAfter parts index = true ∨ ∃ x ∈ xs, sub x = none) := by
  have hf := containsLoop_fst sub xs 0 (hasMinContainsZeroAfter parts index) []
  cases hcb : (hasMinContainsZeroAfter parts index || xs.any fun x => (sub x).isNone) with
  | true =>
      rw [hcb] at hf
      have hgoal : (ValidateContains sub parts index (.arr xs)).1 = none := by
        simp [ValidateContains, hf]
      rw [hgoal]
      simp only [true_iff]
      rcases Bool.or_eq_true_iff.mp hcb with hb | hb
      · exact Or.inl hb
      · refine Or.inr ?_
        simpa only [List.any_eq_true, Option.isNone_iff_eq_none] using hb
  | false =>
      rw [hcb] at hf
      have hgoal : (ValidateContains sub parts index (.arr xs)).1 ≠ none := by
        simp [ValidateContains, hf]
      have hb := Bool.or_eq_false_iff.mp hcb
      constructor
      · intro hc
        exact absurd hc hgoal
      · intro hc
        rcases hc with hc | hc
        · rw [hb.1] at hc
          cases hc
        · have h2 := hb.2
          simp only [List.any_eq_false, Option.isNone_iff_eq_none] at h2
          obtain ⟨x, hx, hsx⟩ := hc
          exact absurd hsx (h2 x hx)

/-! ## C8: type integer on float instances -/

/-- C8: the type keyword with argument integer accepts a float instance
exactly when its truncation compares equal to the value and the value is
not infinite (NaN fails the comparison, infinities fail the finiteness
check); in particular 1.0 is accepted and 1.5 is rejected. -/
theorem type_integer_float_truncation :
    (∀ f : GoFloat,
        ValidateType { s := "integer", ss := none } (.float f) = none ↔
          (GoFloat.goEq f.trunc f = true ∧ f.isInf = false)) ∧
    (ValidateType { s := "integer", ss := none } (.float (.finite 1))).isNone = true ∧
    (ValidateType { s := "integer", ss := none } (.float (.finite (3/2)))).isSome = true := by
  refine ⟨?_, by decide, by decide⟩
  intro f
  simp only [ValidateType, typeMatch, String.reduceEq, reduceIte]
  cases hb : (GoFloat.goEq f.trunc f && !f.isInf) with
  | true =>
      simp only [Bool.and_eq_true, Bool.not_eq_true'] at hb
      simp [hb.1, hb.2]
  | false =>
      simp only [Bool.and_eq_false_iff] at hb
      constructor
      · intro hc
        cases hc
      · intro ⟨h1, h2⟩
        rcases hb with hb | hb
        · rw [h1] at hb
          cases hb
        · rw [h2] at hb
          cases hb

/-! ## C10: negative maxLength / minLength arguments -/

/-- C10: a negative maxLength or minLength argument produces a fatal
non-validation (schema) error for every instance, string or not; with a
non-negative argument every non-string instance validates as true. -/
theorem length_negative_argument_fatal :
    (∀ (arg : ℤ) (inst : Instance), arg < 0 →
        ValidateMaxLength arg inst
            = some (.plain "\"maxLength\" argument is negative, must be non-negative") ∧
        ValidateMinLength arg inst
            = some (.plain "\"maxLength\" argument is negative, must be non-negative") ∧
        ∀ e, (ValidateMaxLength arg inst = some e ∨ ValidateMinLength arg inst = some e) →
          IsValidationError e = false) ∧
    (∀ (arg : ℤ) (inst : Instance), 0 ≤ arg → isStringInstance inst = false →
        ValidateMaxLength arg inst = none ∧ ValidateMinLength arg inst = none) := by
  constructor
  · intro arg inst h
    have h1 : ValidateMaxLength arg inst
        = some (.plain "\"maxLength\" argument is negative, must be non-negative") := by
      simp [ValidateMaxLength, h]
    have h2 : ValidateMinLength arg inst
        = some (.plain "\"maxLength\" argument is negative, must be non-negative") := by
      simp [ValidateMinLength, h]
    refine ⟨h1, h2, ?_⟩
    intro e he
    rcases he with he | he
    · rw [h1] at he
      cases he
      rfl
    · rw [h2] at he
      cases he
      rfl
  · intro arg inst hpos hstr
    have hneg : ¬ arg < 0 := by omega
    cases inst <;> simp_all [ValidateMaxLength, ValidateMinLength, isStringInstance]

/-- Witness for the C10 theorem: argument -1 on a non-string instance is
fatal; argument 2 on a bool instance validates. -/
theorem length_negative_argument_fatal_witness :
    ValidateMaxLength (-1) (.int 7)
        = some (.plain "\"maxLength\" argument is negative, must be non-negative") ∧
    ValidateMaxLength 2 (.bool true) = none :=
  ⟨(length_negative_argument_fatal.1 (-1) (.int 7) (by norm_num)).1,
   (length_negative_argument_fatal.2 2 (.bool true) (by norm_num) rfl).1⟩

/-! ## String helper lemmas for locations -/

/-- The character list of a string with the two-character pointer head. -/
theorem data_hash_slash_append (t : String) :
    ("#/" ++ t).data = '#' :: '/' :: t.data := by
  rw [String.data_append]
  rfl

/-- A keyword location with a pointer head is nonempty. -/
theorem hash_slash_append_ne_empty (t : String) : ("#/" ++ t) ≠ "" := by
  intro h
  have h2 := congrArg String.data h
  rw [data_hash_slash_append] at h2
  cases h2

/-- A keyword location with a pointer head is not the bare root pointer. -/
theorem hash_slash_append_ne_hash (t : String) : ("#/" ++ t) ≠ "#" := by
  intro h
  have h2 := congrArg String.data h
  rw [data_hash_slash_append] at h2
  cases h2

/-- A keyword location with a pointer head has the pointer-head prefix. -/
theorem strHasPrefix_hash_slash (t : String) :
    strHasPrefix ("#/" ++ t) "#/" = true := by
  rw [strHasPrefix, data_hash_slash_append]
  show List.isPrefixOf ['#', '/'] ('#' :: '/' :: t.data) = true
  simp [List.isPrefixOf]

/-- Dropping the pointer head recovers the tail. -/
theorem drop_two_hash_slash (t : String) : ("#/" ++ t).drop 2 = t := by
  apply String.ext
  rw [String.drop_eq, data_hash_slash_append]
  rfl

/-- The tail extraction of AddError on a well-formed nonempty location. -/
theorem locTail_hash_slash (t : String) : locTail ("#/" ++ t) = t := by
  rw [locTail, if_neg (hash_slash_append_ne_empty t)]
  rw [if_pos (strHasPrefix_hash_slash t), drop_two_hash_slash]

/-! ## C7: the nested-error prefixing rule -/

/-- Appending one ValidationError to an aggregated error list. -/
theorem avs_errOfList (l : List VError) (ve : VError) :
    AddValidationErrorStruct (errOfList l) ve = errOfList (l ++ [ve]) := by
  match l with
  | [] => rfl
  | [a] => rfl
  | a :: b :: r => rfl

/-- Folding AddValidationErrorStruct appends to the aggregated list. -/
theorem foldl_avs (ves : List VError) : ∀ l : List VError,
    List.foldl AddValidationErrorStruct (errOfList l) ves = errOfList (l ++ ves) := by
  induction ves with
  | nil => intro l; simp
  | cons v t ih =>
      intro l
      rw [List.foldl_cons, avs_errOfList, ih (l ++ [v])]
      simp

/-- AddError on a validation error appends its restamped
ValidationError values to the aggregated list. -/
theorem addError_validation (l : List VError) (e : GoErr) (loc : String)
    (h : IsValidationError e = true) :
    AddError (errOfList l) e loc = errOfList (l ++ e.veList.map (relocVE loc)) := by
  cases e with
  | vErr ve => rw [show GoErr.veList (.vErr ve) = [ve] from rfl]; exact avs_errOfList l _
  | vErrs ves =>
      show List.foldl (fun a ve => AddValidationErrorStruct a (relocVE loc ve)) (errOfList l) ves
            = _
      rw [← List.foldl_map (relocVE loc) AddValidationErrorStruct ves (errOfList l)]
      exact foldl_avs _ l
  | plain m => cases h
  | joined es => cases h

/-- One aggregation step on validation-error outcomes, in aggregated
form. -/
theorem aggregateStep_validation (l : List VError) (kr : String × Option GoErr)
    (h : ∀ e, kr.2 = some e → IsValidationError e = true) :
    aggregateStep (errOfList l) kr
      = errOfList (l ++ (match kr.2 with
          | none => []
          | some e => stampOne kr.1 e)) := by
  match hk : kr.2 with
  | none => simp [aggregateStep, hk]
  | some e =>
      have hv := h e hk
      simp only [aggregateStep, hk]
      cases hloc : hasAnyLocation e with
      | true =>
          rw [if_pos rfl, addError_validation l e "" hv, stampOne, if_pos hloc]
      | false =>
          rw [if_neg (by simp), addError_validation l e kr.1 hv, stampOne,
            if_neg (by simp [hloc])]

/-- The aggregation loop on validation-error outcomes, generalized over
the already-aggregated list. -/
theorem foldl_aggregateStep_validation (results : List (String × Option GoErr)) :
    (∀ p ∈ results, ∀ e, p.2 = some e → IsValidationError e = true) →
    ∀ l : List VError,
      results.foldl aggregateStep (errOfList l)
        = errOfList (l ++ results.flatMap (fun p =>
            match p.2 with
            | none => []
            | some e => stampOne p.1 e)) := by
  induction results with
  | nil => intro _ l; simp
  | cons hd tl ih =>
      intro h l
      rw [List.foldl_cons,
        aggregateStep_validation l hd (fun e he => h hd (by simp) e he),
        ih (fun p hp e he => h p (by simp [hp]) e he) _]
      simp

/-- C7: during validation of one schema node, a keyword outcome that
already carries a non-empty keyword or instance location is aggregated
with an empty prefix (its pointer-headed keyword locations are kept
unchanged, and empty instance locations are defaulted to the root
pointer), while an outcome carrying no location at all gets the current
keyword name prefixed onto its keyword location; the final error of the
node is the aggregation of the restamped errors of all its parts in
order.  (List- and map-valued keywords prefix the element index or key
inside their own validators, so their nested errors reach this loop
already carrying a location.) -/
theorem nested_error_prefixing :
    (∀ results : List (String × Option GoErr),
      (∀ p ∈ results, ∀ e, p.2 = some e → IsValidationError e = true) →
      validatePartResults results
        = errOfList (results.flatMap (fun p =>
            match p.2 with
            | none => []
            | some e => stampOne p.1 e))) ∧
    (∀ (k : String) (e : GoErr), hasAnyLocation e = true →
      stampOne k e = e.veList.map (relocVE "")) ∧
    (∀ (k : String) (e : GoErr), k ≠ "" → hasAnyLocation e = false →
      ∀ ve ∈ e.veList, relocVE k ve
        = { message := ve.message, keywordLocation := "#/" ++ k, instanceLocation := "#" }) ∧
    (∀ (t : String), t ≠ "" → ∀ msg il,
      relocVE "" { message := msg, keywordLocation := "#/" ++ t, instanceLocation := il }
        = { message := msg, keywordLocation := "#/" ++ t,
            instanceLocation := if il = "" then "#" else il }) := by
  refine ⟨?_, ?_, ?_, ?_⟩
  · intro results h
    have := foldl_aggregateStep_validation results h []
    simpa [validatePartResults, errOfList] using this
  · intro k e h
    rw [stampOne, if_pos h]
  · intro k e hk h ve hve
    have hempty : ve.keywordLocation = "" ∧ ve.instanceLocation = "" := by
      cases e with
      | vErr e0 =>
          simp only [GoErr.veList, List.mem_singleton] at hve
          subst hve
          simpa [hasAnyLocation, not_or] using h
      | vErrs es =>
          simp only [GoErr.veList] at hve
          have h2 : ∀ x ∈ es, x.keywordLocation = "" ∧ x.instanceLocation = "" := by
            simpa [hasAnyLocation, not_or] using h
          exact h2 ve hve
      | plain m => cases hve
      | joined es => cases hve
    rw [relocVE, hempty.1, hempty.2]
    have hl : locTail "" = "" := by rw [locTail]; simp
    rw [hl, composeLoc]
    simp [hk]
  · intro t ht msg il
    rw [relocVE]
    simp only
    rw [locTail_hash_slash, composeLoc]
    simp [ht]

/-- Witness for the C7 theorem: one part with a location-free error gets
the keyword name as its location; a location-carrying error is kept. -/
theorem nested_error_prefixing_witness :
    validatePartResults [("type", some (.vErr (mkVE "m" "" "")))]
      = errOfList (stampOne "type" (.vErr (mkVE "m" "" ""))) ∧
    relocVE "" (mkVE "m" ("#/" ++ "x") "") = mkVE "m" ("#/" ++ "x") "#" := by
  constructor
  · have := nested_error_prefixing.1
      [("type", some (.vErr (mkVE "m" "" "")))]
      (by
        intro p hp e he
        simp only [List.mem_singleton] at hp
        subst hp
        cases he
        rfl)
    simpa using this
  · have := nested_error_prefixing.2.2.2 "x" (by simp) "m" ""
    simpa [mkVE] using this

/-! ## C9: fatal errors displace validation errors -/

/-- C9: once the accumulated error of a schema node is a non-validation
(fatal) error, later validation errors are discarded; a fatal error
arriving while validation errors are accumulated replaces them; and a
node any of whose keywords reports a fatal error returns a
non-validation error. -/
theorem fatal_error_priority :
    (∀ acc : GoErr, IsValidationError acc = false → ∀ ve,
        AddValidationErrorStruct (some acc) ve = some acc) ∧
    (∀ acc : GoErr, IsValidationError acc = true →
        ∀ (e : GoErr) (loc : String), IsValidationError e = false →
          AddError (some acc) e loc = some e) ∧
    (∀ results : List (String × Option GoErr),
        (∃ p ∈ results, ∃ e, p.2 = some e ∧ IsValidationError e = false) →
        ∃ e2, validatePartResults results = some e2 ∧ IsValidationError e2 = false) := by
  have havs : ∀ acc : GoErr, IsValidationError acc = false → ∀ ve,
      AddValidationErrorStruct (some acc) ve = some acc := by
    intro acc h ve
    cases acc with
    | vErr a => cases h
    | vErrs a => cases h
    | plain m => rfl
    | joined es => rfl
  have haddfatal : ∀ (acc : Option GoErr) (e : GoErr) (loc : String),
      IsValidationError e = false →
      ∃ a2, AddError acc e loc = some a2 ∧ IsValidationError a2 = false := by
    intro acc e loc he
    cases e with
    | vErr a => cases he
    | vErrs a => cases he
    | plain m =>
        cases acc with
        | none => exact ⟨.joined [.plain m], rfl, rfl⟩
        | some a =>
            cases a with
            | vErr x => exact ⟨.plain m, rfl, rfl⟩
            | vErrs x => exact ⟨.plain m, rfl, rfl⟩
            | plain x => exact ⟨.joined [.plain x, .plain m], rfl, rfl⟩
            | joined es =>
                by_cases hlen : es.length > 0
                · exact ⟨.joined (es ++ [.plain m]), by simp [AddError, hlen], rfl⟩
                · exact ⟨.joined [.joined es, .plain m], by simp [AddError, hlen], rfl⟩
    | joined js =>
        cases acc with
        | none => exact ⟨.joined [.joined js], rfl, rfl⟩
        | some a =>
            cases a with
            | vErr x => exact ⟨.joined js, rfl, rfl⟩
            | vErrs x => exact ⟨.joined js, rfl, rfl⟩
            | plain x => exact ⟨.joined [.plain x, .joined js], rfl, rfl⟩
            | joined es =>
                by_cases hlen : es.length > 0
                · exact ⟨.joined (es ++ [.joined js]), by simp [AddError, hlen], rfl⟩
                · exact ⟨.joined [.joined es, .joined js], by simp [AddError, hlen], rfl⟩
  have hstepkeep : ∀ (a : GoErr), IsValidationError a = false →
      ∀ kr, ∃ a2, aggregateStep (some a) kr = some a2 ∧ IsValidationError a2 = false := by
    intro a ha kr
    match hk : kr.2 with
    | none => exact ⟨a, by simp [aggregateStep, hk], ha⟩
    | some e =>
        by_cases hv : IsValidationError e = true
        · cases e with
          | vErr ve =>
              refine ⟨a, ?_, ha⟩
              simp only [aggregateStep, hk, AddError]
              split <;> exact havs a ha _
          | vErrs ves =>
              refine ⟨a, ?_, ha⟩
              simp only [aggregateStep, hk, AddError]
              have hfold : ∀ (ves2 : List VError) (loc : String),
                  List.foldl (fun acc ve => AddValidationErrorStruct acc (relocVE loc ve))
                    (some a) ves2 = some a := by
                intro ves2 loc
                induction ves2 with
                | nil => rfl
                | cons v t ih => rw [List.foldl_cons, havs a ha _, ih]
              split <;> exact hfold ves _
          | plain m => cases hv
          | joined es => cases hv
        · simp only [Bool.not_eq_true] at hv
          simp only [aggregateStep, hk]
          split
          · exact haddfatal (some a) e "" hv
          · exact haddfatal (some a) e kr.1 hv
  have hfoldkeep : ∀ (tl : List (String × Option GoErr)) (a : GoErr),
      IsValidationError a = false →
      ∃ a2, tl.foldl aggregateStep (some a) = some a2 ∧ IsValidationError a2 = false := by
    intro tl
    induction tl with
    | nil => intro a ha; exact ⟨a, rfl, ha⟩
    | cons hd t ih =>
        intro a ha
        obtain ⟨a2, h1, h2⟩ := hstepkeep a ha hd
        obtain ⟨a3, h3, h4⟩ := ih a2 h2
        exact ⟨a3, by rw [List.foldl_cons, h1, h3], h4⟩
  refine ⟨havs, ?_, ?_⟩
  · intro acc hval e loc he
    cases e with
    | vErr a => cases he
    | vErrs a => cases he
    | plain m =>
        cases acc with
        | vErr x => rfl
        | vErrs x => rfl
        | plain x => cases hval
        | joined es => cases hval
    | joined js =>
        cases acc with
        | vErr x => rfl
        | vErrs x => rfl
        | plain x => cases hval
        | joined es => cases hval
  · have hgen : ∀ (results : List (String × Option GoErr)) (acc : Option GoErr),
        (∃ p ∈ results, ∃ e, p.2 = some e ∧ IsValidationError e = false) →
        ∃ e2, results.foldl aggregateStep acc = some e2 ∧ IsValidationError e2 = false := by
      intro results
      induction results with
      | nil => intro acc h; simp at h
      | cons hd tl ih =>
          intro acc h
          rcases h with ⟨p, hp, e, he, hev⟩
          rcases List.mem_cons.mp hp with hph | hpt
          · subst hph
            have hstep : ∃ a2, aggregateStep acc p = some a2 ∧ IsValidationError a2 = false := by
              simp only [aggregateStep, he]
              split
              · exact haddfatal acc e "" hev
              · exact haddfatal acc e p.1 hev
            obtain ⟨a2, h1, h2⟩ := hstep
            obtain ⟨a3, h3, h4⟩ := hfoldkeep tl a2 h2
            exact ⟨a3, by rw [List.foldl_cons, h1, h3], h4⟩
          · exact List.foldl_cons _ _ ▸ ih (aggregateStep acc hd) ⟨p, hpt, e, he, hev⟩
    intro results h
    exact hgen results none h

/-! ## C4: JSON pointer navigation errors -/

/-- C4: the claimed error cases of DerefSchema, evaluated on concrete
schemas.  An out-of-range array index and a missing map key do produce
distinct errors; but a pointer token naming a keyword not present in the
current node is skipped silently (the parts scan has no failure branch),
so navigation of the pointer /nosuch over a schema without that keyword
returns the unchanged schema with no error, against the claim. -/
theorem deref_silent_skip_and_distinct_errors :
    DerefSchema 10 convStub c4Root "/nosuch" = .ok c4Root ∧
    DerefSchema 10 convStub c4Root2 "/prefixItems/5"
      = .error "when dereferencing pointer array index out of range" ∧
    DerefSchema 10 convStub c4Root2 "/$defs/b"
      = .error "when dereferencing pointer map key not present" ∧
    "when dereferencing pointer array index out of range"
      ≠ "when dereferencing pointer map key not present" :=
  ⟨rfl, rfl, rfl, by decide⟩

/-! ## C6: the marshalling round-trip -/

/-- C6: parsing the document with an items keyword holding a list of two
boolean schemas (under the modelled pre-2020 vocabulary, whose items
keyword has the schema-or-list-of-schemas argument form) and marshalling
the result emits the element schemas without comma separators, so the
output is not valid JSON and the round-trip reparse fails.  The adjacent
list-of-schemas branch of the same switch does write separators, showing
the missing write is a slip. -/
theorem marshal_schemaOrSchemas_missing_separators :
    c6Marshalled
      = .ok "\x7b\"$schema\":\"http://json-schema.org/draft-07/schema\",\"items\":[truefalse]\x7d" ∧
    marshalOnePartF 10 (.mk "allOf" false (.schemas
        [.mk [.mk "$bool" false (.bool true)], .mk [.mk "$bool" false (.bool false)]]))
      = .ok "\"allOf\":[true,false]" :=
  ⟨rfl, rfl⟩

/-- Witness for the C9 theorem: a validation error added to an
accumulated plain error is discarded; a plain error replaces an
accumulated validation error; a node with a fatal keyword outcome
returns a non-validation error. -/
theorem fatal_error_priority_witness :
    AddValidationErrorStruct (some (.plain "boom"))
        { message := "m", keywordLocation := "", instanceLocation := "" }
      = some (.plain "boom") ∧
    AddError (some (.vErr { message := "m", keywordLocation := "", instanceLocation := "" }))
        (.plain "boom") "k"
      = some (.plain "boom") ∧
    (∃ e2, validatePartResults [("k", some (.plain "boom"))] = some e2 ∧
      IsValidationError e2 = false) :=
  ⟨fatal_error_priority.1 (.plain "boom") rfl _,
   fatal_error_priority.2.1
     (.vErr { message := "m", keywordLocation := "", instanceLocation := "" }) rfl
     (.plain "boom") "k" rfl,
   fatal_error_priority.2.2 [("k", some (.plain "boom"))]
     ⟨("k", some (.plain "boom")), by simp, .plain "boom", rfl, rfl⟩⟩

theorem t_firstSome_isSome {α : Type} (x y : Option α) :
    (firstSome x y).isSome = (x.isSome || y.isSome) := by
  cases x <;> rfl

theorem t_req_combine (bhr a b : Bool) :
    ((!bhr && a) || (!(bhr || a) && b)) = (!bhr && (a || b)) := by
  cases bhr <;> cases a <;> cases b <;> rfl

theorem t_wellWrapped_false (s : Schema) :
    wellWrapped false s = wellWrappedParts s.parts := by
  cases s with
  | mk ps => rfl

theorem t_clean_no_record (parts : List Part) (h : partsClean parts = true) :
    hasRecordPart parts = false := by
  induction parts with
  | nil => rfl
  | cons p rest ih =>
      cases p with
      | mk nm g v =>
          simp only [partsClean, partClean, Bool.and_eq_true] at h
          obtain ⟨⟨hg, _⟩, hrest⟩ := h
          simp only [Bool.not_eq_true'] at hg
          simp only [hasRecordPart, List.any_cons, Part.generated, Part.name, hg,
            Bool.false_and, Bool.false_or]
          exact ih hrest

theorem t_resolveAnchor_str (d : Bool) (v : PartValue) (st : RState) (sd : SubInfo)
    (a : String) (st2 : RState)
    (h : resolveAnchor d v st sd = .ok (a, st2)) : v = .str a := by
  cases v
  case str s =>
    simp only [resolveAnchor] at h
    split at h
    · cases h
    · split at h
      · cases h
      · cases h
        rfl
  all_goals simp only [resolveAnchor] at h
  all_goals cases h

theorem t_wwparts_append_gen (ps : List Part) (nm : String) (v : PartValue) :
    wellWrappedParts (ps ++ [Part.mk nm true v]) = wellWrappedParts ps := by
  induction ps with
  | nil => simp [wellWrappedParts]
  | cons p rest ih =>
      cases p with
      | mk nm' g' v' =>
          simp only [List.cons_append, wellWrappedParts, List.append_eq, ih]

theorem t_scopeParts_append_gen (ps : List Part) (nm : String) (v : PartValue) :
    scopeParts (ps ++ [Part.mk nm true v]) = scopeParts ps := by
  induction ps with
  | nil => simp [scopeParts]
  | cons p rest ih =>
      cases p with
      | mk nm' g' v' =>
          simp only [List.cons_append, scopeParts, List.append_eq, ih]

theorem t_wrap_begins (a : String) (tp : List String) (ps : List Part) :
    beginsWithRecord (Schema.mk (wrapParts a tp ps)) = true := rfl

theorem t_wrap_ends (a : String) (tp : List String) (ps : List Part) :
    endsWithClear (Schema.mk (wrapParts a tp ps)) = true := by
  simp only [endsWithClear, Schema.parts, wrapParts, ← List.cons_append,
    List.getLast?_concat]
  rfl

theorem t_wrap_wwparts (a : String) (tp : List String) (ps : List Part)
    (h : wellWrappedParts ps = true) :
    wellWrappedParts (wrapParts a tp ps) = true := by
  simp only [wrapParts, wellWrappedParts, List.append_eq, Bool.true_or, Bool.true_and]
  rw [t_wwparts_append_gen]
  exact h

theorem t_wrap_scopeParts (a : String) (tp : List String) (ps : List Part) :
    scopeParts (wrapParts a tp ps) = scopeParts ps := by
  simp only [wrapParts, scopeParts, List.append_eq, if_true, Bool.false_or]
  rw [t_scopeParts_append_gen]

theorem t_wrap_hasDyn (a : String) (tp : List String) (ps : List Part) :
    hasDynAnchorPart (wrapParts a tp ps) = hasDynAnchorPart ps := by
  simp only [hasDynAnchorPart, wrapParts, List.any_cons, List.any_append,
    List.any_nil, Part.name, Part.val, Bool.and_false, Bool.false_or, Bool.or_false]

theorem t_wrap_hasId (a : String) (tp : List String) (ps : List Part) :
    hasIdPart (wrapParts a tp ps) = hasIdPart ps := by
  simp only [hasIdPart, wrapParts, List.any_cons, List.any_append,
    List.any_nil, Part.name, Bool.or_false]
  have h1 : (recordDynamicAnchorName == "$id") = false := by decide
  have h2 : (clearDynamicAnchorName == "$id") = false := by decide
  simp [h1, h2]

theorem t_wrap_scopeHasDyn (a : String) (tp : List String) (ps : List Part) :
    scopeHasDyn (Schema.mk (wrapParts a tp ps)) = scopeHasDyn (Schema.mk ps) := by
  simp only [scopeHasDyn, t_wrap_hasDyn, t_wrap_scopeParts]

theorem t_scan_dyn (parts : List Part) : ∀ sd st d0 sd2 st2 dyn,
    scanParts parts sd st d0 = .ok (sd2, st2, dyn) →
    (dyn == "") = ((d0 == "") && !(hasDynAnchorPart parts)) := by
  induction parts with
  | nil =>
      intro sd st d0 sd2 st2 dyn h
      simp only [scanParts] at h
      cases h
      simp [hasDynAnchorPart]
  | cons p rest ih =>
      intro sd st d0 sd2 st2 dyn h
      cases p with
      | mk nm g v =>
          simp only [scanParts, Part.name, Part.val] at h
          by_cases hid : (nm == "$id") = true
          · rw [if_pos hid] at h
            have hnm : nm = "$id" := by
              have := hid
              rwa [beq_iff_eq] at this
            subst hnm
            cases hr : resolveID v st sd with
            | error e => rw [hr] at h; cases h
            | ok pr =>
                rw [hr] at h
                have := ih _ _ _ _ _ _ h
                rw [this]
                simp [hasDynAnchorPart, List.any_cons, Part.name]
          · rw [if_neg (by simpa using hid)] at h
            by_cases han : (nm == "$anchor") = true
            · rw [if_pos han] at h
              have hnm : nm = "$anchor" := by rwa [beq_iff_eq] at han
              subst hnm
              cases hr : resolveAnchor false v st sd with
              | error e => rw [hr] at h; cases h
              | ok pr =>
                  rw [hr] at h
                  have := ih _ _ _ _ _ _ h
                  rw [this]
                  simp [hasDynAnchorPart, List.any_cons, Part.name]
            · rw [if_neg (by simpa using han)] at h
              by_cases hdy : (nm == "$dynamicAnchor") = true
              · rw [if_pos hdy] at h
                have hnm : nm = "$dynamicAnchor" := by rwa [beq_iff_eq] at hdy
                subst hnm
                by_cases hd0 : (!(d0 == "")) = true
                · rw [if_pos hd0] at h; cases h
                · rw [if_neg hd0] at h
                  have hd0' : (d0 == "") = true := by
                    simpa using hd0
                  cases hr : resolveAnchor true v st sd with
                  | error e => rw [hr] at h; cases h
                  | ok pr =>
                      rw [hr] at h
                      obtain ⟨anchor, st2'⟩ := pr
                      have hv : v = .str anchor := t_resolveAnchor_str _ _ _ _ _ _ hr
                      subst hv
                      have := ih _ _ _ _ _ _ h
                      rw [this, hd0']
                      simp only [hasDynAnchorPart, List.any_cons, Part.name, Part.val]
                      cases hae : (anchor == "") <;>
                        cases hrest : rest.any (fun p => p.name == "$dynamicAnchor" &&
                          (match p.val with
                           | .str a => !(a == "")
                           | _ => false)) <;>
                      simp [hae, hrest, hasDynAnchorPart]
              · rw [if_neg (by simpa using hdy)] at h
                by_cases hrf : (nm == "$ref" || nm == "$dynamicRef") = true
                · rw [if_pos hrf] at h
                  have := ih _ _ _ _ _ _ h
                  rw [this]
                  have hnd : (nm == "$dynamicAnchor") = false := by simpa using hdy
                  simp [hasDynAnchorPart, List.any_cons, Part.name, hnd]
                · rw [if_neg (by simpa using hrf)] at h
                  have := ih _ _ _ _ _ _ h
                  rw [this]
                  have hnd : (nm == "$dynamicAnchor") = false := by simpa using hdy
                  simp [hasDynAnchorPart, List.any_cons, Part.name, hnd]

theorem t_step_list (fuel : ℕ) (ihN : IDNodeInv fuel) (ihL : IDListInv fuel) :
    IDListInv (fuel + 1) := by
  intro ss kw i uri basePath st bhr ss2 st2 bhr2 req hclean h
  cases ss with
  | nil =>
      simp only [resolveIDsList] at h
      cases h
      simp [wellWrappedList, scopeList]
  | cons s rest =>
      simp only [resolveIDsList] at h
      cases hc : resolveIDs fuel false s
          { uri := uri, name := basePath ++ [kw ++ "/" ++ toString i] } st bhr with
      | error e =>
          simp only [hc] at h
          cases h
      | ok o =>
          obtain ⟨s2, st2', bhr2', req1⟩ := o
          simp only [hc] at h
          cases hr : resolveIDsList fuel rest kw (i + 1) uri basePath st2' bhr2' with
          | error e =>
              simp only [hr] at h
              cases h
          | ok o2 =>
              obtain ⟨rest2, st3, bhr3, req2⟩ := o2
              simp only [hr, Except.ok.injEq, Prod.mk.injEq] at h
              obtain ⟨h1, h2, h3, h4⟩ := h
              subst h1; subst h2; subst h3; subst h4
              simp only [schemasClean, Bool.and_eq_true] at hclean
              obtain ⟨hs, hrest⟩ := hclean
              have Hn := ihN false s
                { uri := uri, name := basePath ++ [kw ++ "/" ++ toString i] }
                st bhr s2 st2' bhr2' req1 hs hc
              have Hl := ihL rest kw (i + 1) uri basePath st2' bhr2'
                rest2 st3 bhr3 req2 hrest hr
              obtain ⟨Hw, Hsc, Hrq, Hb⟩ := Hl
              by_cases hid : hasIdPart s.parts = true
              · obtain ⟨hw, hidp, hb, hreqnone⟩ := Hn.1 (by simp [hid])
                subst hb
                refine ⟨?_, ?_, ?_, ?_⟩
                · simp only [wellWrappedList, hidp, hid, hw, Hw, Bool.and_self]
                · simp only [scopeList, hidp, hid, if_true, Hsc]
                · rw [hreqnone]
                  simp only [firstSome, Hrq, scopeList, hid, if_true, Bool.false_or]
                · simp only [Hb, scopeList, hid, if_true, Bool.false_or]
              · have hid' : hasIdPart s.parts = false := by simpa using hid
                obtain ⟨hwp, hid2, hsc, hreq1, hb1⟩ := Hn.2 (by simp [hid'])
                subst hb1
                refine ⟨?_, ?_, ?_, ?_⟩
                · simp only [wellWrappedList, hid2, t_wellWrapped_false, hwp, Hw,
                    Bool.and_self]
                · simp only [scopeList, hid2, hid', if_false, hsc, Hsc]
                · rw [t_firstSome_isSome, hreq1, Hrq, t_req_combine]
                  simp [scopeList, hid']
                · simp [Hb, scopeList, hid', Bool.or_assoc]
  

theorem t_step_map (fuel : ℕ) (ihN : IDNodeInv fuel) (ihM : IDMapInv fuel) :
    IDMapInv (fuel + 1) := by
  intro m kw uri basePath st bhr m2 st2 bhr2 req hclean h
  cases m with
  | nil =>
      simp only [resolveIDsMap] at h
      cases h
      simp [wellWrappedMap, scopeMap]
  | cons e rest =>
      obtain ⟨k, s⟩ := e
      simp only [resolveIDsMap] at h
      cases hc : resolveIDs fuel false s
          { uri := uri, name := basePath ++ [kw ++ "/" ++ k] } st bhr with
      | error e =>
          simp only [hc] at h
          cases h
      | ok o =>
          obtain ⟨s2, st2', bhr2', req1⟩ := o
          simp only [hc] at h
          cases hr : resolveIDsMap fuel rest kw uri basePath st2' bhr2' with
          | error e =>
              simp only [hr] at h
              cases h
          | ok o2 =>
              obtain ⟨rest2, st3, bhr3, req2⟩ := o2
              simp only [hr, Except.ok.injEq, Prod.mk.injEq] at h
              obtain ⟨h1, h2, h3, h4⟩ := h
              subst h1; subst h2; subst h3; subst h4
              simp only [mapClean, Bool.and_eq_true] at hclean
              obtain ⟨hs, hrest⟩ := hclean
              have Hn := ihN false s
                { uri := uri, name := basePath ++ [kw ++ "/" ++ k] }
                st bhr s2 st2' bhr2' req1 hs hc
              have Hm := ihM rest kw uri basePath st2' bhr2'
                rest2 st3 bhr3 req2 hrest hr
              obtain ⟨Hw, Hsc, Hrq, Hb⟩ := Hm
              by_cases hid : hasIdPart s.parts = true
              · obtain ⟨hw, hidp, hb, hreqnone⟩ := Hn.1 (by simp [hid])
                subst hb
                refine ⟨?_, ?_, ?_, ?_⟩
                · simp only [wellWrappedMap, hidp, hid, hw, Hw, Bool.and_self]
                · simp only [scopeMap, hidp, hid, if_true, Hsc]
                · rw [hreqnone]
                  simp only [firstSome, Hrq, scopeMap, hid, if_true, Bool.false_or]
                · simp only [Hb, scopeMap, hid, if_true, Bool.false_or]
              · have hid' : hasIdPart s.parts = false := by simpa using hid
                obtain ⟨hwp, hid2, hsc, hreq1, hb1⟩ := Hn.2 (by simp [hid'])
                subst hb1
                refine ⟨?_, ?_, ?_, ?_⟩
                · simp only [wellWrappedMap, hid2, t_wellWrapped_false, hwp, Hw,
                    Bool.and_self]
                · simp only [scopeMap, hid2, hid', if_false, hsc, Hsc]
                · rw [t_firstSome_isSome, hreq1, Hrq, t_req_combine]
                  simp [scopeMap, hid']
                · simp [Hb, scopeMap, hid', Bool.or_assoc]

theorem t_step_amap (fuel : ℕ) (ihN : IDNodeInv fuel) (ihA : IDAMapInv fuel) :
    IDAMapInv (fuel + 1) := by
  intro m kw uri basePath st bhr m2 st2 bhr2 req hclean h
  cases m with
  | nil =>
      simp only [resolveIDsAMap] at h
      cases h
      simp [wellWrappedAMap, scopeAMap]
  | cons e rest =>
      obtain ⟨k, aos⟩ := e
      cases aos with
      | arr a =>
          simp only [resolveIDsAMap] at h
          cases hr : resolveIDsAMap fuel rest kw uri basePath st bhr with
          | error e =>
              simp only [hr] at h
              cases h
          | ok o2 =>
              obtain ⟨rest2, st3, bhr3, req2⟩ := o2
              simp only [hr, Except.ok.injEq, Prod.mk.injEq] at h
              obtain ⟨h1, h2, h3, h4⟩ := h
              subst h1; subst h2; subst h3; subst h4
              simp only [amapClean] at hclean
              have Ha := ihA rest kw uri basePath st bhr rest2 st3 bhr3 req2 hclean hr
              obtain ⟨Hw, Hsc, Hrq, Hb⟩ := Ha
              exact ⟨by simp only [wellWrappedAMap, Hw],
                by simp only [scopeAMap, Hsc],
                by simp only [Hrq, scopeAMap],
                by simp only [Hb, scopeAMap]⟩
      | schema s =>
          simp only [resolveIDsAMap] at h
          cases hc : resolveIDs fuel false s
              { uri := uri, name := basePath ++ [kw ++ "/" ++ k] } st bhr with
          | error e =>
              simp only [hc] at h
              cases h
          | ok o =>
              obtain ⟨s2, st2', bhr2', req1⟩ := o
              simp only [hc] at h
              cases hr : resolveIDsAMap fuel rest kw uri basePath st2' bhr2' with
              | error e =>
                  simp only [hr] at h
                  cases h
              | ok o2 =>
                  obtain ⟨rest2, st3, bhr3, req2⟩ := o2
                  simp only [hr, Except.ok.injEq, Prod.mk.injEq] at h
                  obtain ⟨h1, h2, h3, h4⟩ := h
                  subst h1; subst h2; subst h3; subst h4
                  simp only [amapClean, Bool.and_eq_true] at hclean
                  obtain ⟨hs, hrest⟩ := hclean
                  have Hn := ihN false s
                    { uri := uri, name := basePath ++ [kw ++ "/" ++ k] }
                    st bhr s2 st2' bhr2' req1 hs hc
                  have Ha := ihA rest kw uri basePath st2' bhr2'
                    rest2 st3 bhr3 req2 hrest hr
                  obtain ⟨Hw, Hsc, Hrq, Hb⟩ := Ha
                  by_cases hid : hasIdPart s.parts = true
                  · obtain ⟨hw, hidp, hb, hreqnone⟩ := Hn.1 (by simp [hid])
                    subst hb
                    refine ⟨?_, ?_, ?_, ?_⟩
                    · simp only [wellWrappedAMap, hidp, hid, hw, Hw, Bool.and_self]
                    · simp only [scopeAMap, hidp, hid, if_true, Hsc]
                    · rw [hreqnone]
                      simp only [firstSome, Hrq, scopeAMap, hid, if_true, Bool.false_or]
                    · simp only [Hb, scopeAMap, hid, if_true, Bool.false_or]
                  · have hid' : hasIdPart s.parts = false := by simpa using hid
                    obtain ⟨hwp, hid2, hsc, hreq1, hb1⟩ := Hn.2 (by simp [hid'])
                    subst hb1
                    refine ⟨?_, ?_, ?_, ?_⟩
                    · simp only [wellWrappedAMap, hid2, t_wellWrapped_false, hwp, Hw,
                        Bool.and_self]
                    · simp only [scopeAMap, hid2, hid', if_false, hsc, Hsc]
                    · rw [t_firstSome_isSome, hreq1, Hrq, t_req_combine]
                      simp [scopeAMap, hid']
                    · simp [Hb, scopeAMap, hid', Bool.or_assoc]

theorem t_hasId_cons (p : Part) (l : List Part) :
    hasIdPart (p :: l) = ((p.name == "$id") || hasIdPart l) := by
  simp [hasIdPart, List.any_cons]

theorem t_hasDyn_cons (p : Part) (l : List Part) :
    hasDynAnchorPart (p :: l)
      = ((p.name == "$dynamicAnchor" &&
          (match p.val with
           | .str a => !(a == "")
           | _ => false)) || hasDynAnchorPart l) := by
  simp [hasDynAnchorPart, List.any_cons]

theorem t_scopeMap_insert (p : String × Schema) (l : List (String × Schema)) :
    scopeMap (insertKeySorted p l)
      = ((if hasIdPart p.2.parts then false else scopeHasDyn p.2) || scopeMap l) := by
  induction l with
  | nil => simp [insertKeySorted, scopeMap]
  | cons q rest ih =>
      obtain ⟨qk, qs⟩ := q
      simp only [insertKeySorted]
      cases compare p.1 qk with
      | lt =>
          obtain ⟨pk, ps⟩ := p
          simp [scopeMap]
      | eq =>
          obtain ⟨pk, ps⟩ := p
          simp only [scopeMap, ih]
          cases hidp : hasIdPart ps.parts <;> cases hidq : hasIdPart qs.parts <;>
            simp [hidp, hidq, Bool.or_comm, Bool.or_left_comm]
      | gt =>
          obtain ⟨pk, ps⟩ := p
          simp only [scopeMap, ih]
          cases hidp : hasIdPart ps.parts <;> cases hidq : hasIdPart qs.parts <;>
            simp [hidp, hidq, Bool.or_comm, Bool.or_left_comm]

theorem t_scopeMap_sort (m : List (String × Schema)) :
    scopeMap (sortByKey m) = scopeMap m := by
  induction m with
  | nil => rfl
  | cons p rest ih =>
      obtain ⟨pk, ps⟩ := p
      simp only [sortByKey, List.foldr_cons] at *
      rw [t_scopeMap_insert]
      simp [scopeMap, ih]

theorem t_scopeAMap_insert (p : String × ArrayOrSchema)
    (l : List (String × ArrayOrSchema)) :
    scopeAMap (insertKeySorted p l)
      = ((match p.2 with
          | .arr _ => false
          | .schema s => if hasIdPart s.parts then false else scopeHasDyn s)
         || scopeAMap l) := by
  induction l with
  | nil =>
      obtain ⟨pk, ps⟩ := p
      cases ps <;> simp [insertKeySorted, scopeAMap]
  | cons q rest ih =>
      obtain ⟨qk, qs⟩ := q
      simp only [insertKeySorted]
      cases compare p.1 qk with
      | lt =>
          obtain ⟨pk, ps⟩ := p
          cases ps <;> cases qs <;> simp [scopeAMap]
      | eq =>
          obtain ⟨pk, ps⟩ := p
          cases ps <;> cases qs <;>
            (simp only [scopeAMap, ih]; try simp) <;>
            (cases hx : scopeAMap rest <;> simp [hx, Bool.or_comm, Bool.or_left_comm])
      | gt =>
          obtain ⟨pk, ps⟩ := p
          cases ps <;> cases qs <;>
            (simp only [scopeAMap, ih]; try simp) <;>
            (cases hx : scopeAMap rest <;> simp [hx, Bool.or_comm, Bool.or_left_comm])

theorem t_scopeAMap_sort (m : List (String × ArrayOrSchema)) :
    scopeAMap (sortByKey m) = scopeAMap m := by
  induction m with
  | nil => rfl
  | cons p rest ih =>
      obtain ⟨pk, ps⟩ := p
      simp only [sortByKey, List.foldr_cons] at *
      rw [t_scopeAMap_insert]
      cases ps <;> simp [scopeAMap, ih]

theorem t_mapClean_insert (p : String × Schema) (l : List (String × Schema)) :
    mapClean (insertKeySorted p l) = (schemaClean p.2 && mapClean l) := by
  induction l with
  | nil =>
      obtain ⟨pk, ps⟩ := p
      simp [insertKeySorted, mapClean]
  | cons q rest ih =>
      obtain ⟨qk, qs⟩ := q
      simp only [insertKeySorted]
      cases compare p.1 qk with
      | lt =>
          obtain ⟨pk, ps⟩ := p
          simp [mapClean]
      | eq =>
          obtain ⟨pk, ps⟩ := p
          simp only [mapClean, ih]
          cases schemaClean ps <;> cases schemaClean qs <;>
            simp [Bool.and_comm, Bool.and_left_comm]
      | gt =>
          obtain ⟨pk, ps⟩ := p
          simp only [mapClean, ih]
          cases schemaClean ps <;> cases schemaClean qs <;>
            simp [Bool.and_comm, Bool.and_left_comm]

theorem t_mapClean_sort (m : List (String × Schema)) :
    mapClean (sortByKey m) = mapClean m := by
  induction m with
  | nil => rfl
  | cons p rest ih =>
      obtain ⟨pk, ps⟩ := p
      simp only [sortByKey, List.foldr_cons] at *
      rw [t_mapClean_insert]
      simp [mapClean, ih]

theorem t_amapClean_insert (p : String × ArrayOrSchema)
    (l : List (String × ArrayOrSchema)) :
    amapClean (insertKeySorted p l)
      = ((match p.2 with
          | .arr _ => true
          | .schema s => schemaClean s) && amapClean l) := by
  induction l with
  | nil =>
      obtain ⟨pk, ps⟩ := p
      cases ps <;> simp [insertKeySorted, amapClean]
  | cons q rest ih =>
      obtain ⟨qk, qs⟩ := q
      simp only [insertKeySorted]
      cases compare p.1 qk with
      | lt =>
          obtain ⟨pk, ps⟩ := p
          cases ps <;> cases qs <;> simp [amapClean]
      | eq =>
          obtain ⟨pk, ps⟩ := p
          cases ps <;> cases qs <;>
            (simp only [amapClean, ih]; try simp) <;>
            (cases hx : amapClean rest <;> simp [hx, Bool.and_comm, Bool.and_left_comm])
      | gt =>
          obtain ⟨pk, ps⟩ := p
          cases ps <;> cases qs <;>
            (simp only [amapClean, ih]; try simp) <;>
            (cases hx : amapClean rest <;> simp [hx, Bool.and_comm, Bool.and_left_comm])

theorem t_amapClean_sort (m : List (String × ArrayOrSchema)) :
    amapClean (sortByKey m) = amapClean m := by
  induction m with
  | nil => rfl
  | cons p rest ih =>
      obtain ⟨pk, ps⟩ := p
      simp only [sortByKey, List.foldr_cons] at *
      rw [t_amapClean_insert]
      cases ps <;> simp [amapClean, ih]

set_option maxHeartbeats 1000000 in
theorem t_step_parts (fuel : ℕ) (ihN : IDNodeInv fuel) (ihP : IDPartsInv fuel)
    (ihL : IDListInv fuel) (ihM : IDMapInv fuel) (ihA : IDAMapInv fuel) :
    IDPartsInv (fuel + 1) := by
  intro parts uri basePath st bhr parts2 st2 bhr2 req hclean h
  cases parts with
  | nil =>
      simp only [resolveIDsParts] at h
      cases h
      simp [wellWrappedParts, hasIdPart, hasDynAnchorPart, scopeParts]
  | cons p rest =>
      obtain ⟨nm, g, v⟩ := p
      simp only [resolveIDsParts, Part.generated, Part.val, Part.name] at h
      simp only [partsClean, partClean, Bool.and_eq_true] at hclean
      obtain ⟨⟨hg, hv⟩, hrest⟩ := hclean
      simp only [Bool.not_eq_true'] at hg
      subst hg
      rw [if_neg (by simp)] at h
      cases v
      case schema s =>
        dsimp only at h
        split at h
        next e heq => cases h
        next s2 st2' bhr2' req1 heq =>
          split at h
          next e heq2 => cases h
          next rest2 st3 bhr3 req2 heq2 =>
            simp only [Except.ok.injEq, Prod.mk.injEq] at h
            obtain ⟨h1, h2, h3, h4⟩ := h
            subst h1; subst h2; subst h3; subst h4
            have Hn := ihN false s { uri := uri, name := basePath ++ [nm] }
              st bhr s2 st2' bhr2' req1 (by simpa [valClean] using hv) heq
            have Hp := ihP rest uri basePath st2' bhr2' rest2 st3 bhr3 req2 hrest heq2
            by_cases hid : hasIdPart s.parts = true
            · obtain ⟨hw, hidp, hb, hreqnone⟩ := Hn.1 (by simp [hid])
              subst hb
              obtain ⟨Hw, Hid, Hdy, Hsc, Hrq, Hb⟩ := Hp
              refine ⟨?_, ?_, ?_, ?_, ?_, ?_⟩
              · simp [wellWrappedParts, wellWrappedVal, hidp, hid, hw, Hw]
              · simp [t_hasId_cons, Part.name, Hid]
              · simp [t_hasDyn_cons, Part.name, Part.val, Hdy]
              · simp [scopeParts, scopeVal, hidp, hid, Hsc]
              · rw [hreqnone]
                simp [firstSome, Hrq, scopeParts, scopeVal, hid]
              · simp [Hb, scopeParts, scopeVal, hid]
            · have hid' : hasIdPart s.parts = false := by simpa using hid
              obtain ⟨hwp, hid2, hsc, hreq1, hb1⟩ := Hn.2 (by simp [hid'])
              subst hb1
              obtain ⟨Hw, Hid, Hdy, Hsc, Hrq, Hb⟩ := Hp
              refine ⟨?_, ?_, ?_, ?_, ?_, ?_⟩
              · simp [wellWrappedParts, wellWrappedVal, hid2, t_wellWrapped_false,
                  hwp, Hw]
              · simp [t_hasId_cons, Part.name, Hid]
              · simp [t_hasDyn_cons, Part.name, Part.val, Hdy]
              · simp [scopeParts, scopeVal, hid2, hid', hsc, Hsc]
              · rw [t_firstSome_isSome, hreq1, Hrq, t_req_combine]
                simp [scopeParts, scopeVal, hid', hsc]
              · simp [Hb, scopeParts, scopeVal, hid', Bool.or_assoc]
      case schemas ss =>
        dsimp only at h
        split at h
        next e heq => cases h
        next ss2 st2' bhr2' req1 heq =>
          split at h
          next e heq2 => cases h
          next rest2 st3 bhr3 req2 heq2 =>
            simp only [Except.ok.injEq, Prod.mk.injEq] at h
            obtain ⟨h1, h2, h3, h4⟩ := h
            subst h1; subst h2; subst h3; subst h4
            have Hl := ihL ss nm 0 uri basePath st bhr ss2 st2' bhr2' req1
              (by simpa [valClean] using hv) heq
            obtain ⟨Lw, Lsc, Lrq, Lb⟩ := Hl
            subst Lb
            have Hp := ihP rest uri basePath st2' (bhr || scopeList ss)
              rest2 st3 bhr3 req2 hrest heq2
            obtain ⟨Hw, Hid, Hdy, Hsc, Hrq, Hb⟩ := Hp
            refine ⟨?_, ?_, ?_, ?_, ?_, ?_⟩
            · simp [wellWrappedParts, wellWrappedVal, Lw, Hw]
            · simp [t_hasId_cons, Part.name, Hid]
            · simp [t_hasDyn_cons, Part.name, Part.val, Hdy]
            · simp [scopeParts, scopeVal, Lsc, Hsc]
            · rw [t_firstSome_isSome, Lrq, Hrq, t_req_combine]
              simp [scopeParts, scopeVal]
            · simp [Hb, scopeParts, scopeVal, Bool.or_assoc]
      case mapSchema m =>
        dsimp only at h
        split at h
        next e heq => cases h
        next m2 st2' bhr2' req1 heq =>
          split at h
          next e heq2 => cases h
          next rest2 st3 bhr3 req2 heq2 =>
            simp only [Except.ok.injEq, Prod.mk.injEq] at h
            obtain ⟨h1, h2, h3, h4⟩ := h
            subst h1; subst h2; subst h3; subst h4
            have hsorted : mapClean (sortByKey m) = true := by
              rw [t_mapClean_sort]
              simpa [valClean] using hv
            have Hm := ihM (sortByKey m) nm uri basePath st bhr m2 st2' bhr2' req1
              hsorted heq
            obtain ⟨Mw, Msc, Mrq, Mb⟩ := Hm
            rw [t_scopeMap_sort] at Msc Mrq Mb
            subst Mb
            have Hp := ihP rest uri basePath st2' (bhr || scopeMap m)
              rest2 st3 bhr3 req2 hrest heq2
            obtain ⟨Hw, Hid, Hdy, Hsc, Hrq, Hb⟩ := Hp
            refine ⟨?_, ?_, ?_, ?_, ?_, ?_⟩
            · simp [wellWrappedParts, wellWrappedVal, Mw, Hw]
            · simp [t_hasId_cons, Part.name, Hid]
            · simp [t_hasDyn_cons, Part.name, Part.val, Hdy]
            · simp [scopeParts, scopeVal, Msc, Hsc]
            · rw [t_firstSome_isSome, Mrq, Hrq, t_req_combine]
              simp [scopeParts, scopeVal]
            · simp [Hb, scopeParts, scopeVal, Bool.or_assoc]
      case schemaOrSchemas sOpt ss =>
        cases sOpt with
        | some s =>
            dsimp only at h
            split at h
            next e heq => cases h
            next s2 st2' bhr2' req1 heq =>
              split at h
              next e heq2 => cases h
              next rest2 st3 bhr3 req2 heq2 =>
                simp only [Except.ok.injEq, Prod.mk.injEq] at h
                obtain ⟨h1, h2, h3, h4⟩ := h
                subst h1; subst h2; subst h3; subst h4
                have hs : schemaClean s = true := by
                  simp only [valClean, Bool.and_eq_true] at hv
                  exact hv.1
                have Hn := ihN false s { uri := uri, name := basePath ++ [nm] }
                  st bhr s2 st2' bhr2' req1 hs heq
                have Hp := ihP rest uri basePath st2' bhr2' rest2 st3 bhr3 req2
                  hrest heq2
                by_cases hid : hasIdPart s.parts = true
                · obtain ⟨hw, hidp, hb, hreqnone⟩ := Hn.1 (by simp [hid])
                  subst hb
                  obtain ⟨Hw, Hid, Hdy, Hsc, Hrq, Hb⟩ := Hp
                  refine ⟨?_, ?_, ?_, ?_, ?_, ?_⟩
                  · simp [wellWrappedParts, wellWrappedVal, hidp, hid, hw, Hw]
                  · simp [t_hasId_cons, Part.name, Hid]
                  · simp [t_hasDyn_cons, Part.name, Part.val, Hdy]
                  · simp [scopeParts, scopeVal, hidp, hid, Hsc]
                  · rw [hreqnone]
                    simp [firstSome, Hrq, scopeParts, scopeVal, hid]
                  · simp [Hb, scopeParts, scopeVal, hid]
                · have hid' : hasIdPart s.parts = false := by simpa using hid
                  obtain ⟨hwp, hid2, hsc, hreq1, hb1⟩ := Hn.2 (by simp [hid'])
                  subst hb1
                  obtain ⟨Hw, Hid, Hdy, Hsc, Hrq, Hb⟩ := Hp
                  refine ⟨?_, ?_, ?_, ?_, ?_, ?_⟩
                  · simp [wellWrappedParts, wellWrappedVal, hid2, t_wellWrapped_false,
                      hwp, Hw]
                  · simp [t_hasId_cons, Part.name, Hid]
                  · simp [t_hasDyn_cons, Part.name, Part.val, Hdy]
                  · simp [scopeParts, scopeVal, hid2, hid', hsc, Hsc]
                  · rw [t_firstSome_isSome, hreq1, Hrq, t_req_combine]
                    simp [scopeParts, scopeVal, hid', hsc]
                  · simp [Hb, scopeParts, scopeVal, hid', Bool.or_assoc]
        | none =>
            dsimp only at h
            split at h
            next e heq => cases h
            next ss2 st2' bhr2' req1 heq =>
              split at h
              next e heq2 => cases h
              next rest2 st3 bhr3 req2 heq2 =>
                simp only [Except.ok.injEq, Prod.mk.injEq] at h
                obtain ⟨h1, h2, h3, h4⟩ := h
                subst h1; subst h2; subst h3; subst h4
                have hss : schemasClean ss = true := by
                  simp only [valClean, Bool.and_eq_true] at hv
                  exact hv.2
                have Hl := ihL ss nm 0 uri basePath st bhr ss2 st2' bhr2' req1 hss heq
                obtain ⟨Lw, Lsc, Lrq, Lb⟩ := Hl
                subst Lb
                have Hp := ihP rest uri basePath st2' (bhr || scopeList ss)
                  rest2 st3 bhr3 req2 hrest heq2
                obtain ⟨Hw, Hid, Hdy, Hsc, Hrq, Hb⟩ := Hp
                refine ⟨?_, ?_, ?_, ?_, ?_, ?_⟩
                · simp [wellWrappedParts, wellWrappedVal, Lw, Hw]
                · simp [t_hasId_cons, Part.name, Hid]
                · simp [t_hasDyn_cons, Part.name, Part.val, Hdy]
                · simp [scopeParts, scopeVal, Lsc, Hsc]
                · rw [t_firstSome_isSome, Lrq, Hrq, t_req_combine]
                  simp [scopeParts, scopeVal]
                · simp [Hb, scopeParts, scopeVal, Bool.or_assoc]
      case mapArrayOrSchema m =>
        dsimp only at h
        split at h
        next e heq => cases h
        next m2 st2' bhr2' req1 heq =>
          split at h
          next e heq2 => cases h
          next rest2 st3 bhr3 req2 heq2 =>
            simp only [Except.ok.injEq, Prod.mk.injEq] at h
            obtain ⟨h1, h2, h3, h4⟩ := h
            subst h1; subst h2; subst h3; subst h4
            have hsorted : amapClean (sortByKey m) = true := by
              rw [t_amapClean_sort]
              simpa [valClean] using hv
            have Ha := ihA (sortByKey m) nm uri basePath st bhr m2 st2' bhr2' req1
              hsorted heq
            obtain ⟨Aw, Asc, Arq, Ab⟩ := Ha
            rw [t_scopeAMap_sort] at Asc Arq Ab
            subst Ab
            have Hp := ihP rest uri basePath st2' (bhr || scopeAMap m)
              rest2 st3 bhr3 req2 hrest heq2
            obtain ⟨Hw, Hid, Hdy, Hsc, Hrq, Hb⟩ := Hp
            refine ⟨?_, ?_, ?_, ?_, ?_, ?_⟩
            · simp [wellWrappedParts, wellWrappedVal, Aw, Hw]
            · simp [t_hasId_cons, Part.name, Hid]
            · simp [t_hasDyn_cons, Part.name, Part.val, Hdy]
            · simp [scopeParts, scopeVal, Asc, Hsc]
            · rw [t_firstSome_isSome, Arq, Hrq, t_req_combine]
              simp [scopeParts, scopeVal]
            · simp [Hb, scopeParts, scopeVal, Bool.or_assoc]
      all_goals
        dsimp only at h
      all_goals
        split at h
      all_goals
        try cases h
      all_goals
        (rename_i parts2r heq
         obtain ⟨Hw, Hid, Hdy, Hsc, Hrq, Hb⟩ :=
           ihP rest uri basePath st bhr parts2r st2 bhr2 req hrest heq
         exact ⟨by simp [wellWrappedParts, wellWrappedVal, Hw],
                by simp [t_hasId_cons, Part.name, Hid],
                by simp [t_hasDyn_cons, Part.name, Part.val, Hdy],
                by simp [scopeParts, scopeVal, Hsc],
                by simp [Hrq, scopeParts, scopeVal],
                by simp [Hb, scopeParts, scopeVal]⟩)

set_option maxHeartbeats 1000000 in
theorem t_step_node (fuel : ℕ) (ihP : IDPartsInv fuel) : IDNodeInv (fuel + 1) := by
  intro isRoot n sd st bhr n2 st2 bhr2 req hclean h
  obtain ⟨ps⟩ := n
  simp only [schemaClean] at hclean
  simp only [resolveIDs, Schema.parts] at h
  simp only [Schema.parts]
  split at h
  next e heqscan => cases h
  next sd2 st2' dyn heqscan =>
    have hdyn := t_scan_dyn ps sd st "" sd2 st2' dyn heqscan
    simp only [beq_self_eq_true, Bool.true_and] at hdyn
    have hrec : hasRecordPart ps = false := t_clean_no_record ps hclean
    by_cases hbase : (isRoot || hasIdPart ps) = true
    · rw [hbase] at h
      rw [if_pos rfl] at h
      simp only [hrec, Bool.false_eq_true, if_false, Bool.false_or] at h
      constructor
      · intro _
        by_cases hdy : (dyn == "") = true
        · have hnodyn : hasDynAnchorPart ps = false := by
            rw [hdy] at hdyn
            simpa using hdyn.symm
          rw [hdy] at h
          simp only [eq_self_iff_true, if_true, Bool.not_true, firstSome] at h
          split at h
          next e heq2 => cases h
          next parts2 st3 bhr3 creq heq2 =>
            obtain ⟨Hw, Hid, Hdy, Hsc, Hrq, Hb⟩ :=
              ihP ps sd2.uri sd.name st2' false parts2 st3 bhr3 creq hclean heq2
            simp only [Bool.not_false, Bool.true_and] at Hrq
            cases creq with
            | none =>
                simp only [Except.ok.injEq, Prod.mk.injEq] at h
                obtain ⟨h1, h2, h3, h4⟩ := h
                subst h1; subst h2; subst h3; subst h4
                have hsp : scopeParts ps = false := by
                  simpa using Hrq.symm
                refine ⟨?_, ?_, rfl, rfl⟩
                · simp only [wellWrapped, scopeHasDyn, Schema.parts, Hdy, Hsc,
                    hnodyn, hsp, Bool.or_self, Bool.and_false, Bool.not_false,
                    Bool.true_or, Bool.true_and]
                  exact Hw
                · simp only [Schema.parts, Hid]
            | some r =>
                simp only [Except.ok.injEq, Prod.mk.injEq] at h
                obtain ⟨h1, h2, h3, h4⟩ := h
                subst h1; subst h2; subst h3; subst h4
                refine ⟨?_, ?_, rfl, rfl⟩
                · simp only [wellWrapped, Schema.parts, t_wrap_begins,
                    t_wrap_ends, Bool.and_self, Bool.or_true, Bool.true_and]
                  exact t_wrap_wwparts r.1 r.2 parts2 Hw
                · simp only [Schema.parts, t_wrap_hasId, Hid]
        · have hdy' : (dyn == "") = false := by simpa using hdy
          rw [hdy'] at h
          simp only [Bool.false_eq_true, if_false, Bool.not_false, firstSome] at h
          split at h
          next e heq2 => cases h
          next parts2 st3 bhr3 creq heq2 =>
            obtain ⟨Hw, Hid, Hdy, Hsc, Hrq, Hb⟩ :=
              ihP ps sd2.uri sd.name st2' true parts2 st3 bhr3 creq hclean heq2
            simp only [Except.ok.injEq, Prod.mk.injEq] at h
            obtain ⟨h1, h2, h3, h4⟩ := h
            subst h1; subst h2; subst h3; subst h4
            refine ⟨?_, ?_, rfl, rfl⟩
            · simp only [wellWrapped, Schema.parts, t_wrap_begins,
                t_wrap_ends, Bool.and_self, Bool.or_true, Bool.true_and]
              exact t_wrap_wwparts dyn sd.name parts2 Hw
            · simp only [Schema.parts, t_wrap_hasId, Hid]
      · intro hcontra
        rw [hbase] at hcontra
        cases hcontra
    · have hbase' : (isRoot || hasIdPart ps) = false := by simpa using hbase
      rw [hbase'] at h
      simp only [Bool.false_eq_true, if_false] at h
      constructor
      · intro hcontra
        rw [hbase'] at hcontra
        cases hcontra
      · intro _
        split at h
        next e heq2 => cases h
        next parts2 st3 bhr3 creq heq2 =>
          obtain ⟨Hw, Hid, Hdy, Hsc, Hrq, Hb⟩ :=
            ihP ps sd2.uri sd.name st2' (bhr || !(dyn == "")) parts2 st3 bhr3 creq
              hclean heq2
          simp only [Except.ok.injEq, Prod.mk.injEq] at h
          obtain ⟨h1, h2, h3, h4⟩ := h
          subst h1; subst h2; subst h3; subst h4
          have hid0 : hasIdPart ps = false := by
            rcases Bool.or_eq_false_iff.mp hbase' with ⟨_, hh⟩
            exact hh
          refine ⟨?_, ?_, ?_, ?_, ?_⟩
          · simp only [Schema.parts]
            exact Hw
          · simp only [Schema.parts, Hid, hid0]
          · simp only [scopeHasDyn, Schema.parts, Hdy, Hsc]
          · rw [t_firstSome_isSome, Hrq]
            cases hDps : hasDynAnchorPart ps with
            | true =>
                have hdz : (dyn == "") = false := by
                  rw [hDps] at hdyn
                  simpa using hdyn
                rw [hdz]
                simp only [if_false, Bool.not_false, Bool.or_true, scopeHasDyn,
                  Schema.parts, hDps, Bool.true_or]
                cases bhr with
                | true => simp
                | false => simp
            | false =>
                have hdz : (dyn == "") = true := by
                  rw [hDps] at hdyn
                  simpa using hdyn
                rw [hdz]
                simp only [if_true, Bool.not_true, Bool.or_false, scopeHasDyn,
                  Schema.parts, hDps, Bool.false_or, Option.isSome_none,
                  Bool.false_or]
          · rw [Hb]
            cases hDps : hasDynAnchorPart ps with
            | true =>
                have hdz : (dyn == "") = false := by
                  rw [hDps] at hdyn
                  simpa using hdyn
                rw [hdz]
                simp only [Bool.not_false, scopeHasDyn, Schema.parts, hDps,
                  Bool.true_or, Bool.or_true, Bool.or_assoc]
            | false =>
                have hdz : (dyn == "") = true := by
                  rw [hDps] at hdyn
                  simpa using hdyn
                rw [hdz]
                simp only [Bool.not_true, scopeHasDyn, Schema.parts, hDps,
                  Bool.or_false, Bool.false_or, Bool.or_assoc]

theorem t_id_zero :
    IDNodeInv 0 ∧ IDPartsInv 0 ∧ IDListInv 0 ∧ IDMapInv 0 ∧ IDAMapInv 0 := by
  refine ⟨?_, ?_, ?_, ?_, ?_⟩
  · intro isRoot n sd st bhr n2 st2 bhr2 req hclean h
    simp only [resolveIDs] at h
    cases h
  · intro parts uri basePath st bhr parts2 st2 bhr2 req hclean h
    simp only [resolveIDsParts] at h
    cases h
  · intro ss kw i uri basePath st bhr ss2 st2 bhr2 req hclean h
    simp only [resolveIDsList] at h
    cases h
  · intro m kw uri basePath st bhr m2 st2 bhr2 req hclean h
    simp only [resolveIDsMap] at h
    cases h
  · intro m kw uri basePath st bhr m2 st2 bhr2 req hclean h
    simp only [resolveIDsAMap] at h
    cases h

theorem t_id_inv (fuel : ℕ) :
    IDNodeInv fuel ∧ IDPartsInv fuel ∧ IDListInv fuel ∧ IDMapInv fuel ∧
      IDAMapInv fuel := by
  induction fuel with
  | zero => exact t_id_zero
  | succ fuel ih =>
      obtain ⟨ihN, ihP, ihL, ihM, ihA⟩ := ih
      exact ⟨t_step_node fuel ihP,
             t_step_parts fuel ihN ihP ihL ihM ihA,
             t_step_list fuel ihN ihL,
             t_step_map fuel ihN ihM,
             t_step_amap fuel ihN ihA⟩

/-- C5 (amended): after the ID pass of the resolver, for any schema
containing no generated parts (as every schema parsed from JSON is),
every base node — the root, or a node carrying $id — whose $id-scope
contains a non-empty $dynamicAnchor begins with a generated
$$recordDynamicAnchor part and ends with a generated $$clearDynamicAnchor
part, recursively through the whole tree (the wellWrapped predicate).
The claim as stated, about the schema after full resolution, fails:
resolveRefs later appends generated reference parts after the clear
part, as the counterexample shows. -/
theorem c5_wrap_invariant_amended (fuel : ℕ) (uri : Option URL) (root : Schema)
    (st : RState) (out : Schema × RState × Bool × Option (String × List String))
    (hclean : schemaClean root = true)
    (h : resolveIDs fuel true root { uri := uri, name := [] } st false
      = Except.ok out) :
    wellWrapped true out.1 = true := by
  obtain ⟨n2, st2, bhr2, req⟩ := out
  exact (((t_id_inv fuel).1 true root { uri := uri, name := [] } st false
    n2 st2 bhr2 req hclean h).1 (by simp)).1

/-- Witness for the C5 amended theorem: the counterexample schema is
clean, its ID pass succeeds, and the result satisfies the wrap
invariant. -/
theorem c5_wrap_invariant_amended_witness :
    wellWrapped true c5Pass1Res.1 = true :=
  c5_wrap_invariant_amended 30 none c5Root emptyRState c5Pass1Res rfl rfl

/-- C5 (counterexample): fully resolving a root holding a $ref to a
$defs entry that carries a $dynamicAnchor yields a root that begins
with the record part but does not end with the clear part — its last
part is the generated $$resolvedRef part appended by the reference
pass — while the node at $defs/x still carries the anchor and the
root (which has no $id) is its owning base.  This refutes the claim
that after resolution the owning base ends with the clear part. -/
theorem c5_counterexample_ref_after_clear : c5CounterCheck = true := by rfl

end JS
